import Mathlib

/-!
# Verification of the vbolib column-computation engine

Shallow embedding of the vbolib `.vbo` editor (src/vbolib.py, with the pure
kernels of src/functions/) and proofs about the claims of its specification.

The table model follows src/vbolib.py: a `[header]` list, a `[column names]`
list, and a `[data]` ordered mapping from column name to the list of row
value strings, plus the parsed row count `nval` and the optional `[avi]`
section contents.  Python exceptions are modelled explicitly: functions that
can raise return the (possibly partially mutated) state together with an
`Option PyErr`.  Machine floats are modelled as real numbers; the plain
decimal subset of Python's `float()` string conversion is modelled by an
executable rational parser.
-/

set_option maxHeartbeats 1000000

namespace Vbolib

/-! ## Digit strings and the plain-decimal model of Python numeric parsing -/

/-- Value of a decimal digit string, as accumulated by positional parsing
(the value semantics of Python `int()` on an all-digit string). -/
def digitsVal (l : List Char) : ℕ :=
  l.foldl (fun a c => 10 * a + (c.toNat - 48)) 0

/-- Little helper: digit characters of a natural number, most significant
first (fuel-based so that kernel reduction works). -/
def natToDigitsAux : ℕ → ℕ → List Char
  | 0, _ => []
  | fuel + 1, n =>
    if n < 10 then [Nat.digitChar n]
    else natToDigitsAux fuel (n / 10) ++ [Nat.digitChar (n % 10)]

/-- Decimal digit characters of a natural number, most significant first.
Models the digits of Python `str(n)` for `n : ℕ`. -/
def natToDigits (n : ℕ) : List Char :=
  natToDigitsAux (n + 1) n

/-- Parse a nonempty all-digit character list as a natural number; `none`
otherwise.  This is Python `int()` restricted to unsigned digit strings. -/
def parseNatDigits (l : List Char) : Option ℕ :=
  if l ≠ [] ∧ l.all Char.isDigit then some (digitsVal l) else none

/-- Model of Python `int(s)` on an optionally signed digit string. -/
def pyIntParse (l : List Char) : Option ℤ :=
  match l with
  | [] => none
  | c :: rest =>
    if c = '-' then (parseNatDigits rest).map (fun n => -(n : ℤ))
    else if c = '+' then (parseNatDigits rest).map (fun n => (n : ℤ))
    else (parseNatDigits l).map (fun n => (n : ℤ))

/-- Model of the unsigned part of Python `float(s)` on a plain decimal
literal `digits ['.' digits]`. -/
def parseUnsignedRat (l : List Char) : Option ℚ :=
  let ip := l.takeWhile (fun c => c ≠ '.')
  match l.dropWhile (fun c => c ≠ '.') with
  | [] => (parseNatDigits ip).map (fun n => (n : ℚ))
  | _ :: fp =>
    match parseNatDigits ip, parseNatDigits fp with
    | some i, some f => some (mkRat (i * 10 ^ fp.length + f) (10 ^ fp.length))
    | _, _ => none

/-- Model of Python `float(s)` on a plain decimal literal with optional
sign: `[+-] digits ['.' digits]`.  (The exotic inputs `float()` also
accepts — exponents, `inf`, `nan`, underscores — never arise from this
code base and are outside the modelled subset.) -/
def parseRatStr (l : List Char) : Option ℚ :=
  match l with
  | [] => none
  | c :: rest =>
    if c = '-' then (parseUnsignedRat rest).map (fun q => -q)
    else if c = '+' then parseUnsignedRat rest
    else parseUnsignedRat l

/-- `float()` of a table cell, as a real number. -/
noncomputable def parseFloatStr (s : String) : Option ℝ :=
  (parseRatStr s.data).map (fun q => (q : ℝ))

/-! ## Python string helpers used by the codec and the formatters -/

/-- Model of Python `str.strip()` (strip whitespace at both ends). -/
def pyStrip (l : List Char) : List Char :=
  ((l.dropWhile Char.isWhitespace).reverse.dropWhile Char.isWhitespace).reverse

/-- Model of Python `str.split('.')`: split at every `'.'`. -/
def splitOnDot : List Char → List (List Char)
  | [] => [[]]
  | c :: rest =>
    if c = '.' then [] :: splitOnDot rest
    else
      match splitOnDot rest with
      | [] => [[c]]
      | p :: ps => (c :: p) :: ps

/-- Model of Python `str.zfill(w)`: left-pad with `'0'` to total width `w`,
inserting the zeros after a leading sign. -/
def pyZfill (l : List Char) (w : ℕ) : List Char :=
  match l with
  | c :: rest =>
    if c = '-' ∨ c = '+' then c :: (List.replicate (w - l.length) '0' ++ rest)
    else List.replicate (w - l.length) '0' ++ l
  | [] => List.replicate w '0'

/-- Model of Python `str.ljust(w, fill)`: right-pad to width `w`. -/
def pyLjust (l : List Char) (w : ℕ) (fill : Char) : List Char :=
  l ++ List.replicate (w - l.length) fill

/-- Digit characters of an integer with its sign, i.e. Python `str(n)` for
`n : ℤ`. -/
def intToDigits (n : ℤ) : List Char :=
  if n < 0 then '-' :: natToDigits n.natAbs else natToDigits n.natAbs

/-! ## src/vbolib.py `pad_with_zeros` and the HHMMSS.CC time codec -/

/-- src/vbolib.py `pad_with_zeros`: `str(number).zfill(total_length)`. -/
def padWithZeros (number : ℤ) (totalLength : ℕ) : String :=
  ⟨pyZfill (intToDigits number) totalLength⟩

/-- src/vbolib.py `hhmmsscc_to_milliseconds` (same code in
src/functions/format.py and src/vbox_file.py): decode a `HHMMSS.CC`
timestamp string to integer milliseconds.  `none` models the `ValueError`
raised by `int()` or by unpacking a `split('.')` of the wrong arity. -/
def hhmmssccToMs (timestr : String) : Option ℤ := do
  let t := pyStrip timestr.data
  let parts := if '.' ∈ t then splitOnDot t else [t, ['0', '0']]
  match parts with
  | [mainRaw, centis] =>
    let main := pyZfill mainRaw 6
    let hours ← pyIntParse (main.take 2)
    let minutes ← pyIntParse ((main.drop 2).take 2)
    let seconds ← pyIntParse ((main.drop 4).take 2)
    let centiseconds ← pyIntParse (pyLjust centis 2 '0')
    pure (hours * 3600000 + minutes * 60000 + seconds * 1000 + centiseconds * 10)
  | _ => none

/-! ## Facts about digit characters and the parsing helpers -/

theorem digitChar_isDigit {d : ℕ} (h : d < 10) : (Nat.digitChar d).isDigit = true := by
  interval_cases d <;> decide

theorem digitChar_not_whitespace {d : ℕ} (h : d < 10) :
    (Nat.digitChar d).isWhitespace = false := by
  interval_cases d <;> decide

theorem digitChar_ne_dot {d : ℕ} (h : d < 10) : Nat.digitChar d ≠ '.' := by
  interval_cases d <;> decide

theorem digitChar_ne_minus {d : ℕ} (h : d < 10) : Nat.digitChar d ≠ '-' := by
  interval_cases d <;> decide

theorem digitChar_ne_plus {d : ℕ} (h : d < 10) : Nat.digitChar d ≠ '+' := by
  interval_cases d <;> decide

theorem digitChar_toNat {d : ℕ} (h : d < 10) : (Nat.digitChar d).toNat - 48 = d := by
  interval_cases d <;> decide

theorem isDigit_ne_minus {c : Char} (h : c.isDigit = true) : c ≠ '-' := by
  intro he; subst he; exact absurd h (by decide)

theorem isDigit_ne_plus {c : Char} (h : c.isDigit = true) : c ≠ '+' := by
  intro he; subst he; exact absurd h (by decide)

theorem isDigit_ne_dot {c : Char} (h : c.isDigit = true) : c ≠ '.' := by
  intro he; subst he; exact absurd h (by decide)

theorem isDigit_not_whitespace {c : Char} (h : c.isDigit = true) :
    c.isWhitespace = false := by
  cases hw : c.isWhitespace
  · rfl
  · exfalso
    have hc : c = ' ' ∨ c = '\t' ∨ c = '\r' ∨ c = '\n' := by
      have := hw
      simp only [Char.isWhitespace, Bool.or_eq_true, decide_eq_true_eq] at this
      tauto
    rcases hc with h1 | h1 | h1 | h1 <;> (subst h1; exact absurd h (by decide))

theorem dropWhile_eq_self_of_all {p : Char → Bool} :
    ∀ l : List Char, (∀ c ∈ l, p c = false) → l.dropWhile p = l
  | [], _ => rfl
  | c :: rest, h => by
    simp [List.dropWhile_cons, h c (by simp)]

theorem pyStrip_eq_self {l : List Char} (h : ∀ c ∈ l, c.isWhitespace = false) :
    pyStrip l = l := by
  unfold pyStrip
  rw [dropWhile_eq_self_of_all l h,
    dropWhile_eq_self_of_all l.reverse (fun c hc => h c (List.mem_reverse.mp hc)),
    List.reverse_reverse]

theorem splitOnDot_no_dot : ∀ l : List Char, '.' ∉ l → splitOnDot l = [l]
  | [], _ => rfl
  | c :: rest, h => by
    have hc : ¬ c = '.' := fun he => h (he ▸ List.mem_cons_self c rest)
    have hr : '.' ∉ rest := fun hm => h (List.mem_cons_of_mem c hm)
    simp only [splitOnDot, if_neg hc, splitOnDot_no_dot rest hr]

theorem splitOnDot_append : ∀ l₁ l₂ : List Char, '.' ∉ l₁ →
    splitOnDot (l₁ ++ '.' :: l₂) = l₁ :: splitOnDot l₂
  | [], l₂, _ => by simp [splitOnDot]
  | c :: rest, l₂, h => by
    have hc : ¬ c = '.' := fun he => h (he ▸ List.mem_cons_self c rest)
    have hr : '.' ∉ rest := fun hm => h (List.mem_cons_of_mem c hm)
    have ih := splitOnDot_append rest l₂ hr
    simp only [List.cons_append, splitOnDot, if_neg hc]
    rw [show rest.append ('.' :: l₂) = rest ++ '.' :: l₂ from rfl, ih]

theorem parseNatDigits_of_digits {l : List Char} (h1 : l ≠ [])
    (h2 : ∀ c ∈ l, c.isDigit = true) : parseNatDigits l = some (digitsVal l) := by
  simp only [parseNatDigits, List.all_eq_true, if_pos (And.intro h1 h2)]

theorem pyIntParse_of_digits {l : List Char} (h1 : l ≠ [])
    (h2 : ∀ c ∈ l, c.isDigit = true) :
    pyIntParse l = some ((digitsVal l : ℤ)) := by
  match l, h1 with
  | c :: rest, _ =>
    have hd : c.isDigit = true := h2 c (by simp)
    simp only [pyIntParse, if_neg (isDigit_ne_minus hd), if_neg (isDigit_ne_plus hd),
      parseNatDigits_of_digits (by simp) h2]
    rfl

theorem digitsVal_pair {a b : ℕ} (ha : a < 10) (hb : b < 10) :
    digitsVal [Nat.digitChar a, Nat.digitChar b] = 10 * a + b := by
  simp [digitsVal, List.foldl, digitChar_toNat ha, digitChar_toNat hb]

/-- C4's general digit-group property, phrased over the eight embedded digit
characters of a full `HHMMSS.CC` string. -/
theorem hhmmssccToMs_digit_groups (a b c d e f g h : ℕ)
    (ha : a < 10) (hb : b < 10) (hc : c < 10) (hd : d < 10)
    (he : e < 10) (hf : f < 10) (hg : g < 10) (hh : h < 10) :
    hhmmssccToMs ⟨[Nat.digitChar a, Nat.digitChar b, Nat.digitChar c, Nat.digitChar d,
      Nat.digitChar e, Nat.digitChar f, '.', Nat.digitChar g, Nat.digitChar h]⟩ =
      some (((10 * a + b : ℕ) : ℤ) * 3600000 + ((10 * c + d : ℕ) : ℤ) * 60000 +
        ((10 * e + f : ℕ) : ℤ) * 1000 + ((10 * g + h : ℕ) : ℤ) * 10) := by
  have hmain : ∀ x ∈ [Nat.digitChar a, Nat.digitChar b, Nat.digitChar c, Nat.digitChar d,
      Nat.digitChar e, Nat.digitChar f], x.isDigit = true := by
    intro x hx
    simp only [List.mem_cons, List.not_mem_nil, or_false] at hx
    rcases hx with h1|h1|h1|h1|h1|h1 <;> subst h1 <;>
      first
        | exact digitChar_isDigit ha
        | exact digitChar_isDigit hb
        | exact digitChar_isDigit hc
        | exact digitChar_isDigit hd
        | exact digitChar_isDigit he
        | exact digitChar_isDigit hf
  have hfrac : ∀ x ∈ [Nat.digitChar g, Nat.digitChar h], x.isDigit = true := by
    intro x hx
    simp only [List.mem_cons, List.not_mem_nil, or_false] at hx
    rcases hx with h1|h1 <;> subst h1 <;>
      first
        | exact digitChar_isDigit hg
        | exact digitChar_isDigit hh
  have hstrip : pyStrip [Nat.digitChar a, Nat.digitChar b, Nat.digitChar c, Nat.digitChar d,
      Nat.digitChar e, Nat.digitChar f, '.', Nat.digitChar g, Nat.digitChar h] = _ :=
    pyStrip_eq_self (l := [Nat.digitChar a, Nat.digitChar b, Nat.digitChar c, Nat.digitChar d,
      Nat.digitChar e, Nat.digitChar f, '.', Nat.digitChar g, Nat.digitChar h]) (by
      intro x hx
      simp only [List.mem_cons, List.not_mem_nil, or_false] at hx
      rcases hx with h1|h1|h1|h1|h1|h1|h1|h1|h1 <;> subst h1 <;>
        first
          | exact digitChar_not_whitespace ha
          | exact digitChar_not_whitespace hb
          | exact digitChar_not_whitespace hc
          | exact digitChar_not_whitespace hd
          | exact digitChar_not_whitespace he
          | exact digitChar_not_whitespace hf
          | rfl
          | exact digitChar_not_whitespace hg
          | exact digitChar_not_whitespace hh)
  have hsplit : splitOnDot [Nat.digitChar a, Nat.digitChar b, Nat.digitChar c, Nat.digitChar d,
      Nat.digitChar e, Nat.digitChar f, '.', Nat.digitChar g, Nat.digitChar h] =
      [[Nat.digitChar a, Nat.digitChar b, Nat.digitChar c, Nat.digitChar d,
        Nat.digitChar e, Nat.digitChar f], [Nat.digitChar g, Nat.digitChar h]] := by
    have h1 : '.' ∉ [Nat.digitChar a, Nat.digitChar b, Nat.digitChar c, Nat.digitChar d,
        Nat.digitChar e, Nat.digitChar f] := by
      intro hm
      simp only [List.mem_cons, List.not_mem_nil, or_false] at hm
      rcases hm with h1|h1|h1|h1|h1|h1 <;>
        first
          | exact digitChar_ne_dot ha h1.symm
          | exact digitChar_ne_dot hb h1.symm
          | exact digitChar_ne_dot hc h1.symm
          | exact digitChar_ne_dot hd h1.symm
          | exact digitChar_ne_dot he h1.symm
          | exact digitChar_ne_dot hf h1.symm
    have h2 : '.' ∉ [Nat.digitChar g, Nat.digitChar h] := by
      intro hm
      simp only [List.mem_cons, List.not_mem_nil, or_false] at hm
      rcases hm with h1|h1 <;>
        first
          | exact digitChar_ne_dot hg h1.symm
          | exact digitChar_ne_dot hh h1.symm
    have := splitOnDot_append [Nat.digitChar a, Nat.digitChar b, Nat.digitChar c,
      Nat.digitChar d, Nat.digitChar e, Nat.digitChar f] [Nat.digitChar g, Nat.digitChar h] h1
    simpa [splitOnDot_no_dot _ h2] using this
  have hdotmem : '.' ∈ [Nat.digitChar a, Nat.digitChar b, Nat.digitChar c, Nat.digitChar d,
      Nat.digitChar e, Nat.digitChar f, '.', Nat.digitChar g, Nat.digitChar h] := by
    simp
  simp only [hhmmssccToMs, String.data, hstrip, if_pos hdotmem, hsplit]
  have hzfill : pyZfill [Nat.digitChar a, Nat.digitChar b, Nat.digitChar c, Nat.digitChar d,
      Nat.digitChar e, Nat.digitChar f] 6 =
      [Nat.digitChar a, Nat.digitChar b, Nat.digitChar c, Nat.digitChar d,
        Nat.digitChar e, Nat.digitChar f] := by
    simp [pyZfill, digitChar_ne_minus ha, digitChar_ne_plus ha]
  rw [hzfill]
  have hljust : pyLjust [Nat.digitChar g, Nat.digitChar h] 2 '0' =
      [Nat.digitChar g, Nat.digitChar h] := by
    simp [pyLjust]
  rw [hljust]
  have htake : ([Nat.digitChar a, Nat.digitChar b, Nat.digitChar c, Nat.digitChar d,
      Nat.digitChar e, Nat.digitChar f].take 2) = [Nat.digitChar a, Nat.digitChar b] := rfl
  have hdrop2 : (([Nat.digitChar a, Nat.digitChar b, Nat.digitChar c, Nat.digitChar d,
      Nat.digitChar e, Nat.digitChar f].drop 2).take 2) = [Nat.digitChar c, Nat.digitChar d] := rfl
  have hdrop4 : (([Nat.digitChar a, Nat.digitChar b, Nat.digitChar c, Nat.digitChar d,
      Nat.digitChar e, Nat.digitChar f].drop 4).take 2) = [Nat.digitChar e, Nat.digitChar f] := rfl
  rw [htake, hdrop2, hdrop4,
    pyIntParse_of_digits (by simp) (fun x hx => by
      simp only [List.mem_cons, List.not_mem_nil, or_false] at hx
      rcases hx with h1|h1 <;> subst h1
      · exact digitChar_isDigit ha
      · exact digitChar_isDigit hb),
    pyIntParse_of_digits (by simp) (fun x hx => by
      simp only [List.mem_cons, List.not_mem_nil, or_false] at hx
      rcases hx with h1|h1 <;> subst h1
      · exact digitChar_isDigit hc
      · exact digitChar_isDigit hd),
    pyIntParse_of_digits (by simp) (fun x hx => by
      simp only [List.mem_cons, List.not_mem_nil, or_false] at hx
      rcases hx with h1|h1 <;> subst h1
      · exact digitChar_isDigit he
      · exact digitChar_isDigit hf),
    pyIntParse_of_digits (by simp) (fun x hx => by
      simp only [List.mem_cons, List.not_mem_nil, or_false] at hx
      rcases hx with h1|h1 <;> subst h1
      · exact digitChar_isDigit hg
      · exact digitChar_isDigit hh)]
  simp only [Option.bind_some, Option.some_bind, Option.bind_eq_bind]
  rw [digitsVal_pair ha hb, digitsVal_pair hc hd, digitsVal_pair he hf, digitsVal_pair hg hh]
  rfl

/-- C4 (counterexample): the spec's test vector `decode("094559.96") == 34199960`
fails on the code: 9h 45m 59.96s is 35159960 ms, as the spec's own decode
formula also implies. -/
theorem hhmmsscc_vector_counterexample :
    hhmmssccToMs "094559.96" ≠ some 34199960 ∧
      hhmmssccToMs "094559.96" = some 35159960 := by
  decide

/-- C4 (amended): `hhmmsscc_to_milliseconds` is a pure function of the
embedded digit groups (for any full `HHMMSS.CC` digit string it returns
`hh*3600000 + mm*60000 + ss*1000 + cc*10`), and the corrected test vectors
hold: decoding "094559.96" returns 35159960 and decoding "000000" returns 0. -/
theorem hhmmsscc_digit_groups_and_vectors :
    hhmmssccToMs "094559.96" = some 35159960 ∧
    hhmmssccToMs "000000" = some 0 ∧
    ∀ a b c d e f g h : ℕ, a < 10 → b < 10 → c < 10 → d < 10 →
      e < 10 → f < 10 → g < 10 → h < 10 →
      hhmmssccToMs ⟨[Nat.digitChar a, Nat.digitChar b, Nat.digitChar c, Nat.digitChar d,
        Nat.digitChar e, Nat.digitChar f, '.', Nat.digitChar g, Nat.digitChar h]⟩ =
        some (((10 * a + b : ℕ) : ℤ) * 3600000 + ((10 * c + d : ℕ) : ℤ) * 60000 +
          ((10 * e + f : ℕ) : ℤ) * 1000 + ((10 * g + h : ℕ) : ℤ) * 10) := by
  refine ⟨by decide, by decide, ?_⟩
  intro a b c d e f g h ha hb hc hd he hf hg hh
  exact hhmmssccToMs_digit_groups a b c d e f g h ha hb hc hd he hf hg hh

/-- Witness for C4's amended theorem at the digit groups of "094559.96". -/
theorem hhmmsscc_digit_groups_and_vectors_witness :
    hhmmssccToMs ⟨[Nat.digitChar 0, Nat.digitChar 9, Nat.digitChar 4, Nat.digitChar 5,
      Nat.digitChar 5, Nat.digitChar 9, '.', Nat.digitChar 9, Nat.digitChar 6]⟩ =
      some (((10 * 0 + 9 : ℕ) : ℤ) * 3600000 + ((10 * 4 + 5 : ℕ) : ℤ) * 60000 +
        ((10 * 5 + 9 : ℕ) : ℤ) * 1000 + ((10 * 9 + 6 : ℕ) : ℤ) * 10) :=
  hhmmsscc_digit_groups_and_vectors.2.2 0 9 4 5 5 9 9 6 (by decide) (by decide)
    (by decide) (by decide) (by decide) (by decide) (by decide) (by decide)

/-- C5 (counterexample): the spec claims `decode("000001.5") == 1050`; the
code right-pads "5" to "50" centiseconds, i.e. 0.5 s = 500 ms, and returns
1500. -/
theorem hhmmsscc_pad_counterexample :
    hhmmssccToMs "000001.5" ≠ some 1050 ∧
      hhmmssccToMs "000001.5" = some 1500 := by
  decide

/-- C5 (amended): a single fractional digit is right-padded with a zero
(decoding "000001.d" agrees with decoding "000001.d0" and yields
`1000 + d*100` milliseconds), and decoding "000001.5" returns 1500. -/
theorem hhmmsscc_single_digit_fraction :
    hhmmssccToMs "000001.5" = some 1500 ∧
    ∀ d : ℕ, d < 10 →
      hhmmssccToMs ⟨['0', '0', '0', '0', '0', '1', '.', Nat.digitChar d]⟩ =
        some (1000 + (d : ℤ) * 100) ∧
      hhmmssccToMs ⟨['0', '0', '0', '0', '0', '1', '.', Nat.digitChar d, '0']⟩ =
        some (1000 + (d : ℤ) * 100) := by
  refine ⟨by decide, ?_⟩
  intro d hd
  constructor
  · have hstrip : pyStrip ['0', '0', '0', '0', '0', '1', '.', Nat.digitChar d] = _ :=
      pyStrip_eq_self (l := ['0', '0', '0', '0', '0', '1', '.', Nat.digitChar d]) (by
        intro x hx
        simp only [List.mem_cons, List.not_mem_nil, or_false] at hx
        rcases hx with h1|h1|h1|h1|h1|h1|h1|h1 <;> subst h1 <;>
          first
            | rfl
            | exact digitChar_not_whitespace hd)
    have hsplit : splitOnDot ['0', '0', '0', '0', '0', '1', '.', Nat.digitChar d] =
        [['0', '0', '0', '0', '0', '1'], [Nat.digitChar d]] := by
      have h1 : '.' ∉ (['0', '0', '0', '0', '0', '1'] : List Char) := by decide
      have h2 : '.' ∉ [Nat.digitChar d] := by
        intro hm
        simp only [List.mem_cons, List.not_mem_nil, or_false] at hm
        exact digitChar_ne_dot hd hm.symm
      have := splitOnDot_append ['0', '0', '0', '0', '0', '1'] [Nat.digitChar d] h1
      simpa [splitOnDot_no_dot _ h2] using this
    have hdot : '.' ∈ ['0', '0', '0', '0', '0', '1', '.', Nat.digitChar d] := by simp
    simp only [hhmmssccToMs, String.data, hstrip, if_pos hdot, hsplit]
    have hljust : pyLjust [Nat.digitChar d] 2 '0' = [Nat.digitChar d, '0'] := by
      simp [pyLjust, List.replicate]
    rw [hljust]
    have hzf : pyZfill ['0', '0', '0', '0', '0', '1'] 6 = ['0', '0', '0', '0', '0', '1'] := by
      decide
    rw [hzf]
    have hp1 : pyIntParse ((['0', '0', '0', '0', '0', '1'] : List Char).take 2) = some 0 := by
      decide
    have hp2 : pyIntParse (((['0', '0', '0', '0', '0', '1'] : List Char).drop 2).take 2) =
        some 0 := by decide
    have hp3 : pyIntParse (((['0', '0', '0', '0', '0', '1'] : List Char).drop 4).take 2) =
        some 1 := by decide
    rw [hp1, hp2, hp3,
      pyIntParse_of_digits (l := [Nat.digitChar d, '0']) (by simp) (fun x hx => by
        simp only [List.mem_cons, List.not_mem_nil, or_false] at hx
        rcases hx with h1|h1 <;> subst h1
        · exact digitChar_isDigit hd
        · decide)]
    have hval : digitsVal [Nat.digitChar d, '0'] = 10 * d := by
      have h0 : ('0' : Char) = Nat.digitChar 0 := by decide
      rw [h0, digitsVal_pair hd (by norm_num)]
      omega
    rw [hval]
    simp only [Option.bind_some, Option.some_bind, Option.bind_eq_bind]
    exact congrArg some (by push_cast; ring)
  · have h0 : ('0' : Char) = Nat.digitChar 0 := by decide
    have h1 : ('1' : Char) = Nat.digitChar 1 := by decide
    have := hhmmssccToMs_digit_groups 0 0 0 0 0 1 d 0 (by norm_num) (by norm_num)
      (by norm_num) (by norm_num) (by norm_num) (by norm_num) hd (by norm_num)
    rw [h0, h1]
    rw [this]
    congr 1
    push_cast
    ring

/-- Witness for C5's amended theorem at digit 5. -/
theorem hhmmsscc_single_digit_fraction_witness :
    hhmmssccToMs ⟨['0', '0', '0', '0', '0', '1', '.', Nat.digitChar 5]⟩ =
      some (1000 + (5 : ℤ) * 100) :=
  (hhmmsscc_single_digit_fraction.2 5 (by decide)).1

/-! ## The table model (src/vbolib.py `VboFile`)

The `[data]` section is an ordered mapping column name → row values, modelled
as an association list with unique keys (`OrderedDict` semantics: update in
place, insert at end, remove shifts the rest left).  Python exceptions are
modelled by an `Option PyErr` result component carrying the (possibly
partially mutated) state, since Python mutations performed before a raise
persist in the object. -/

/-- Python exceptions raised by the modelled code paths. -/
inductive PyErr where
  | keyError (msg : String)
  | indexError
  | valueError (msg : String)
  | typeError
  deriving DecidableEq, Repr

/-- The `[data]` section: ordered mapping from column name to row values. -/
abbrev Data := List (String × List String)

/-- Keys of the data mapping, in order. -/
def dataKeys (d : Data) : List String :=
  d.map Prod.fst

/-- `data[key]` lookup (first matching entry). -/
def dataLookup : Data → String → Option (List String)
  | [], _ => none
  | (k, v) :: rest, key => if k = key then some v else dataLookup rest key

/-- `data[key] = v`: update in place if present, else insert at the end
(`OrderedDict` assignment). -/
def dataInsert : Data → String → List String → Data
  | [], key, v => [(key, v)]
  | (k, w) :: rest, key, v =>
    if k = key then (k, v) :: rest else (k, w) :: dataInsert rest key v

/-- `data.pop(key)`: remove the entry with the given key. -/
def dataErase : Data → String → Data
  | [], _ => []
  | (k, w) :: rest, key => if k = key then rest else (k, w) :: dataErase rest key

/-- `data[col][i]` as the cell string; `KeyError`/`IndexError` on failure. -/
def readCellStr (d : Data) (col : String) (i : ℕ) : Except PyErr String :=
  match dataLookup d col with
  | none => .error (.keyError col)
  | some vs =>
    match vs[i]? with
    | none => .error .indexError
    | some s => .ok s

/-- Decidable equality for modelled exception-carrying results. -/
instance {e a : Type} [DecidableEq e] [DecidableEq a] : DecidableEq (Except e a) := fun x y =>
  match x, y with
  | .error u, .error v =>
    if h : u = v then .isTrue (by rw [h]) else .isFalse (by simp [h])
  | .ok u, .ok v =>
    if h : u = v then .isTrue (by rw [h]) else .isFalse (by simp [h])
  | .error _, .ok _ => .isFalse (by simp)
  | .ok _, .error _ => .isFalse (by simp)

/-- `hhmmsscc_to_milliseconds(data[col][i])`: cell read followed by the time
codec; codec failure is `int()`'s `ValueError`. -/
def readMs (d : Data) (timeCol : String) (i : ℕ) : Except PyErr ℤ :=
  match readCellStr d timeCol i with
  | .error e => .error e
  | .ok s =>
    match hhmmssccToMs s with
    | none => .error (.valueError "invalid literal for int() with base 10")
    | some m => .ok m

/-- `float(data[col][i])`: cell read followed by float conversion. -/
noncomputable def readFloat (d : Data) (col : String) (i : ℕ) : Except PyErr ℝ :=
  match readCellStr d col i with
  | .error e => .error e
  | .ok s =>
    match parseFloatStr s with
    | none => .error (.valueError "could not convert string to float")
    | some x => .ok x

/-- The in-memory `VboFile` state: the `[header]` lines, the
`[column names]` list, the `[data]` mapping, the parsed row count `nval`,
and the `[avi]` section contents (`none` when the section is absent).
Other sections and the on-disk section order are not touched by the
modelled operations and are omitted. -/
structure Table where
  header : List String
  colNames : List String
  data : Data
  nval : ℕ
  avi : Option (List String)
  deriving DecidableEq, Repr

/-- The error message of `VboFile.add_computed_column` for a duplicate
header registration. -/
def dupHeaderMsg (label : String) : String :=
  "Header column " ++ label ++ " already exists in headers."

/-- The error message of `VboFile.add_computed_column` for a transform that
did not add exactly one new column. -/
def invalidComputedMsg : String :=
  "Computed column must add exactly one new column."

/-- src/vbolib.py `VboFile.add_computed_column`: append the header label
(fatal `ValueError` if it already exists), run the compute function on the
data section, require exactly one key new relative to `[column names]`
(fatal `ValueError` otherwise), and append that key to `[column names]`.
A compute function returns its (possibly partially mutated) data together
with the exception it raised, if any. -/
def addComputedColumn (t : Table) (headerColumnName : String)
    (computeFunction : Data → Data × Option PyErr) : Table × Option PyErr :=
  if headerColumnName ∈ t.header then
    (t, some (.valueError (dupHeaderMsg headerColumnName)))
  else
    let t1 : Table := { t with header := t.header ++ [headerColumnName] }
    let r := computeFunction t1.data
    match r.2 with
    | some e => ({ t1 with data := r.1 }, some e)
    | none =>
      match (dataKeys r.1).filter (fun c => decide (c ∉ t1.colNames)) with
      | [c] => ({ t1 with data := r.1, colNames := t1.colNames ++ [c] }, none)
      | _ => ({ t1 with data := r.1 }, some (.valueError invalidComputedMsg))

/-- src/vbolib.py `VboFile.remove_column`: drop the column name from
`[column names]`, the header entry from `[header]`, and the column from
`[data]`; each removal is guarded by membership (no-op when absent). -/
def removeColumn (t : Table) (headerColumnName dataColumnName : String) : Table :=
  let cn := if dataColumnName ∈ t.colNames then t.colNames.erase dataColumnName
    else t.colNames
  let hd := if headerColumnName ∈ t.header then t.header.erase headerColumnName
    else t.header
  let d := if dataColumnName ∈ dataKeys t.data then dataErase t.data dataColumnName
    else t.data
  { t with header := hd, colNames := cn, data := d }

/-- src/vbolib.py `VboFile.add_constant_column`: register a constant-valued
column through `add_computed_column` unless the data column already exists. -/
def addConstantColumn (t : Table) (headerColumnName dataColumnName constantValue : String) :
    Table × Option PyErr :=
  if dataColumnName ∈ dataKeys t.data then (t, none)
  else addComputedColumn t headerColumnName
    (fun d => (dataInsert d dataColumnName (List.replicate t.nval constantValue), none))

/-! ## The `[avi]` section (src/vbolib.py `VboFile.add_avi_section`) -/

/-- The accumulation loop of the nested `add_avitime_column`: rows i ≥ 1 add
the per-row time delta to the running avitime value.  On a raise the rows
appended so far persist (the column list is mutated in place). -/
def avitimeGo (d : Data) (timeCol : String) : ℤ → List ℕ → List String × Option PyErr
  | _, [] => ([], none)
  | cur, i :: rest =>
    match readMs d timeCol (i - 1), readMs d timeCol i with
    | .error e, _ => ([], some e)
    | .ok _, .error e => ([], some e)
    | .ok pm, .ok cm =>
      let cur2 := cur + (cm - pm)
      let (vals, e) := avitimeGo d timeCol cur2 rest
      (padWithZeros cur2 9 :: vals, e)

/-- The nested `add_avitime_column` compute function of `add_avi_section`:
row 0 is the start sync time, later rows accumulate the time deltas; every
value is zero-padded to width 9.  When `'avitime'` is already a data column
the Python function falls through and returns `None`, which makes the caller
fail with a `TypeError` downstream; that is modelled as an immediate
`TypeError`. -/
def addAvitimeColumn (nval : ℕ) (timeCol : String) (startSyncTime : ℤ)
    (d : Data) : Data × Option PyErr :=
  if "avitime" ∈ dataKeys d then (d, some .typeError)
  else if nval = 0 then (dataInsert d "avitime" [], none)
  else
    let r := avitimeGo d timeCol startSyncTime ((List.range nval).drop 1)
    (dataInsert d "avitime" (padWithZeros startSyncTime 9 :: r.1), r.2)

/-- src/vbolib.py `VboFile.add_avi_section`: create the `[avi]` section if
absent, add the constant `'avifileindex'` column if absent, and add the
`'avisynctime'` computed column if `'avisynctime'` is not a data column.
(The final `__move_section` call only reorders sections on disk and is
outside the model.)  Exceptions from the column additions propagate. -/
def addAviSection (t : Table) (videoFileName videoFormat : String) (number : ℤ)
    (startSyncTime : ℤ) (timeCol : String) : Table × Option PyErr :=
  let t0 := if t.avi = none then { t with avi := some [videoFileName, videoFormat] } else t
  let syncStep := fun (t1 : Table) =>
    if "avisynctime" ∈ dataKeys t1.data then (t1, none)
    else addComputedColumn t1 "avisynctime" (addAvitimeColumn t1.nval timeCol startSyncTime)
  if "avifileindex" ∈ dataKeys t0.data then syncStep t0
  else
    match addConstantColumn t0 "avifileindex" "avifileindex" (padWithZeros number 4) with
    | (t1, some e) => (t1, some e)
    | (t1, none) => syncStep t1

/-! ## Claims about the table mutation contract -/

/-- C3: the `add_computed_column` contract.  When the header label is new
and the compute function returns without raising, then: if the number of
data keys new relative to `[column names]` differs from 1 the call fails
with the "must add exactly one new column" `ValueError` (the header label
and the compute output staying in place), and if exactly the single key `c`
is new, the call succeeds with `c` appended to `[column names]` and the
label appended to `[header]`, preserving the positional association. -/
theorem add_computed_column_contract (t : Table) (label : String)
    (f : Data → Data × Option PyErr) (d : Data)
    (hl : label ∉ t.header)
    (hf : f t.data = (d, none)) :
    (((dataKeys d).filter (fun c => decide (c ∉ t.colNames))).length ≠ 1 →
      addComputedColumn t label f =
        ({ t with header := t.header ++ [label], data := d },
          some (.valueError invalidComputedMsg))) ∧
    (∀ c, (dataKeys d).filter (fun x => decide (x ∉ t.colNames)) = [c] →
      addComputedColumn t label f =
        ({ t with header := t.header ++ [label], colNames := t.colNames ++ [c],
                  data := d }, none)) := by
  constructor
  · intro hlen
    simp only [addComputedColumn, if_neg hl, hf]
    rcases hfil : (dataKeys d).filter (fun c => decide (c ∉ t.colNames)) with _ | ⟨c, _ | ⟨c2, rest⟩⟩ <;>
      simp only [hfil]
    exact absurd (by rw [hfil]; rfl) hlen
  · intro c hfil
    simp only [addComputedColumn, if_neg hl, hf, hfil]

/-- Witness for C3 at a concrete one-column table and a compute function
adding the single column "b". -/
theorem add_computed_column_contract_witness :
    addComputedColumn
      { header := ["h1"], colNames := ["a"], data := [("a", ["1"])], nval := 1, avi := none }
      "h2" (fun d => (dataInsert d "b" ["2"], none)) =
      ({ header := ["h1", "h2"], colNames := ["a", "b"],
         data := [("a", ["1"]), ("b", ["2"])], nval := 1, avi := none }, none) :=
  (add_computed_column_contract
    { header := ["h1"], colNames := ["a"], data := [("a", ["1"])], nval := 1, avi := none }
    "h2" (fun d => (dataInsert d "b" ["2"], none)) [("a", ["1"]), ("b", ["2"])]
    (by decide) rfl).2 "b" (by decide)

/-- C9: `add_computed_column` appends the header label before running the
compute function, so on either failure mode — the compute function raising,
or the exactly-one-new-column check failing — the table is left modified:
the appended header label stays, and the data section keeps whatever the
compute function produced. -/
theorem add_computed_column_failure_keeps_mutations (t : Table) (label : String)
    (f : Data → Data × Option PyErr) (d : Data)
    (hl : label ∉ t.header) :
    (∀ e : PyErr, f t.data = (d, some e) →
      addComputedColumn t label f =
        ({ t with header := t.header ++ [label], data := d }, some e)) ∧
    (f t.data = (d, none) →
      ((dataKeys d).filter (fun c => decide (c ∉ t.colNames))).length ≠ 1 →
      addComputedColumn t label f =
        ({ t with header := t.header ++ [label], data := d },
          some (.valueError invalidComputedMsg))) := by
  constructor
  · intro e hf
    simp only [addComputedColumn, if_neg hl, hf]
  · intro hf hlen
    exact (add_computed_column_contract t label f d hl hf).1 hlen

/-- Witness for C9 at a concrete table and a compute function that adds a
partial column "b" and then raises an `IndexError`: the label "h2" and the
column "b" stay in the failed table. -/
theorem add_computed_column_failure_keeps_mutations_witness :
    addComputedColumn
      { header := ["h1"], colNames := ["a"], data := [("a", ["1"])], nval := 1, avi := none }
      "h2" (fun d => (dataInsert d "b" ["2"], some .indexError)) =
      ({ header := ["h1", "h2"], colNames := ["a"],
         data := [("a", ["1"]), ("b", ["2"])], nval := 1, avi := none },
        some .indexError) :=
  (add_computed_column_failure_keeps_mutations
    { header := ["h1"], colNames := ["a"], data := [("a", ["1"])], nval := 1, avi := none }
    "h2" (fun d => (dataInsert d "b" ["2"], some .indexError)) [("a", ["1"]), ("b", ["2"])]
    (by decide)).1 .indexError rfl

/-- A well-formed two-row table with satellite and time columns, used to
exhibit the `add_avi_section` re-invocation failure. -/
def aviDemoTable : Table :=
  { header := ["satellites", "time"], colNames := ["sats", "time"],
    data := [("sats", ["10", "10"]), ("time", ["000000.00", "000001.00"])],
    nval := 2, avi := none }

/-- C1: `add_avi_section` is not idempotent.  The first call succeeds, but
it stores the computed column under the data key "avitime" while guarding
re-invocation on the key "avisynctime"; hence the second call reaches
`add_computed_column` again and dies with the duplicate-header
`ValueError` instead of being a non-fatal no-op. -/
theorem add_avi_section_second_call_fatal :
    (addAviSection aviDemoTable "video_" "MOV" 3 (-300000) "time").2 = none ∧
    "avisynctime" ∈ (addAviSection aviDemoTable "video_" "MOV" 3 (-300000) "time").1.header ∧
    "avitime" ∈ dataKeys (addAviSection aviDemoTable "video_" "MOV" 3 (-300000) "time").1.data ∧
    "avisynctime" ∉
      dataKeys (addAviSection aviDemoTable "video_" "MOV" 3 (-300000) "time").1.data ∧
    (addAviSection (addAviSection aviDemoTable "video_" "MOV" 3 (-300000) "time").1
      "video_" "MOV" 3 (-300000) "time").2 =
      some (.valueError (dupHeaderMsg "avisynctime")) := by
  decide

/-! ## The physics kernel (src/functions/physics.py) -/

/-- Python float division: `ZeroDivisionError` (modelled as `none`) on a
zero denominator. -/
noncomputable def pyDiv (a b : ℝ) : Option ℝ :=
  if b = 0 then none else some (a / b)

/-- src/functions/physics.py `estimate_instant_fuel_consumption`.  Guards
only `rpm == 0`; the divisions by `273.15 + intake_temp` and by
`14.7 * lambda_value` are unguarded and modelled with `pyDiv` (divisions by
the nonzero constants 1000, 100, 120 and 745 cannot raise and stay plain). -/
noncomputable def estimateInstantFuelConsumption (rpm throttle intakeTemp : ℝ)
    (engineDisplacementCc : ℤ) (ve lambdaValue : ℝ) : Option ℝ :=
  if rpm = 0 then some 0
  else
    match pyDiv (15.0 + 273.15) (273.15 + intakeTemp) with
    | none => none
    | some tempFactor =>
      let airDensity := 1.225 * tempFactor
      let displacementLiters := (engineDisplacementCc : ℝ) / 1000
      let throttleFrac := throttle / 100
      let totalIntakeVolume := ve * displacementLiters * throttleFrac
      let airMassPerRev := totalIntakeVolume * airDensity
      match pyDiv airMassPerRev (14.7 * lambdaValue) with
      | none => none
      | some fuelMassPerRev =>
        let fuelGramsPerSec := fuelMassPerRev * (rpm / 120)
        some (fuelGramsPerSec / 745 * 60)

/-- C10: the only guard is `rpm == 0` (returning 0); for `rpm ≠ 0` the
computation is defined exactly when `intake_temp ≠ -273.15` and
`lambda_value ≠ 0`, and divides by zero otherwise. -/
theorem fuel_division_guard (rpm throttle intakeTemp : ℝ)
    (engineDisplacementCc : ℤ) (ve lambdaValue : ℝ) :
    (rpm = 0 →
      estimateInstantFuelConsumption rpm throttle intakeTemp engineDisplacementCc
        ve lambdaValue = some 0) ∧
    (rpm ≠ 0 →
      ((estimateInstantFuelConsumption rpm throttle intakeTemp engineDisplacementCc
        ve lambdaValue).isSome ↔ (intakeTemp ≠ -273.15 ∧ lambdaValue ≠ 0))) := by
  have h1 : ((273.15 : ℝ) + intakeTemp = 0) ↔ intakeTemp = -273.15 := by
    constructor <;> intro h <;> linarith
  have h2 : ((14.7 : ℝ) * lambdaValue = 0) ↔ lambdaValue = 0 := by
    rw [mul_eq_zero]
    constructor
    · rintro (h | h)
      · norm_num at h
      · exact h
    · exact Or.inr
  refine ⟨fun h => by simp [estimateInstantFuelConsumption, h], fun hr => ?_⟩
  by_cases ht : (273.15 : ℝ) + intakeTemp = 0
  · simp only [estimateInstantFuelConsumption, if_neg hr, pyDiv, if_pos ht,
      Option.isSome_none, Bool.false_eq_true, false_iff, not_and_or]
    exact Or.inl (fun hcon => hcon (h1.mp ht))
  · by_cases hlv : (14.7 : ℝ) * lambdaValue = 0
    · simp only [estimateInstantFuelConsumption, if_neg hr, pyDiv, if_neg ht, if_pos hlv,
        Option.isSome_none, Bool.false_eq_true, false_iff, not_and_or]
      exact Or.inr (fun hcon => hcon (h2.mp hlv))
    · simp only [estimateInstantFuelConsumption, if_neg hr, pyDiv, if_neg ht, if_neg hlv,
        Option.isSome_some, true_iff]
      exact ⟨fun he => ht (h1.mpr he), fun he => hlv (h2.mpr he)⟩

/-- Witness for C10: at rpm 1000 and sane engine parameters the computation
is defined. -/
theorem fuel_division_guard_witness :
    (estimateInstantFuelConsumption 1000 50 20 2000 0.9 1).isSome :=
  ((fuel_division_guard 1000 50 20 2000 0.9 1).2 (by norm_num)).mpr
    ⟨by norm_num, by norm_num⟩

/-- C8 (counterexample): at rpm = 0 the output is 0 for every throttle, so
raising the throttle from 50 to 60 does not strictly increase the output,
contradicting the claim for arbitrary fixed parameter values. -/
theorem fuel_throttle_not_strict_at_zero_rpm :
    estimateInstantFuelConsumption 0 50 20 2000 0.9 1 = some 0 ∧
    estimateInstantFuelConsumption 0 60 20 2000 0.9 1 = some 0 ∧
    (50 : ℝ) < 60 ∧ (50 : ℝ) ≠ 0 := by
  refine ⟨?_, ?_, by norm_num, by norm_num⟩ <;>
    simp [estimateInstantFuelConsumption]

/-- C8 (amended): for positive rpm, displacement, volumetric efficiency and
lambda, and an intake temperature above absolute zero, the output is
strictly increasing in throttle on [0, 100]. -/
theorem fuel_throttle_strict_mono (rpm t1 t2 intakeTemp : ℝ)
    (engineDisplacementCc : ℤ) (ve lambdaValue : ℝ)
    (hrpm : 0 < rpm) (hcc : 0 < engineDisplacementCc) (hve : 0 < ve)
    (hlam : 0 < lambdaValue) (htemp : -273.15 < intakeTemp)
    (ht1 : 0 ≤ t1) (h12 : t1 < t2) (ht2 : t2 ≤ 100) :
    ∃ v1 v2,
      estimateInstantFuelConsumption rpm t1 intakeTemp engineDisplacementCc
        ve lambdaValue = some v1 ∧
      estimateInstantFuelConsumption rpm t2 intakeTemp engineDisplacementCc
        ve lambdaValue = some v2 ∧ v1 < v2 := by
  have hr : rpm ≠ 0 := ne_of_gt hrpm
  have htpos : (0 : ℝ) < 273.15 + intakeTemp := by linarith
  have ht : (273.15 : ℝ) + intakeTemp ≠ 0 := ne_of_gt htpos
  have hlvpos : (0 : ℝ) < 14.7 * lambdaValue := by positivity
  have hlv : (14.7 : ℝ) * lambdaValue ≠ 0 := ne_of_gt hlvpos
  have hccR : (0 : ℝ) < (engineDisplacementCc : ℝ) := by exact_mod_cast hcc
  simp only [estimateInstantFuelConsumption, if_neg hr, pyDiv, if_neg ht, if_neg hlv]
  refine ⟨_, _, rfl, rfl, ?_⟩
  have key : ∀ u : ℝ,
      ve * ((engineDisplacementCc : ℝ) / 1000) * (u / 100) *
          (1.225 * ((15.0 + 273.15) / (273.15 + intakeTemp))) / (14.7 * lambdaValue) *
          (rpm / 120) / 745 * 60 =
        u * (ve * (engineDisplacementCc : ℝ) *
          (1.225 * ((15.0 + 273.15) / (273.15 + intakeTemp))) / (14.7 * lambdaValue) *
          rpm / 8940000000 * 60) := by
    intro u
    field_simp
    ring
  rw [key t1, key t2]
  have hcpos : (0 : ℝ) < ve * (engineDisplacementCc : ℝ) *
      (1.225 * ((15.0 + 273.15) / (273.15 + intakeTemp))) / (14.7 * lambdaValue) *
      rpm / 8940000000 * 60 := by positivity
  exact mul_lt_mul_of_pos_right h12 hcpos

/-- Witness for C8's amended theorem at a concrete engine state. -/
theorem fuel_throttle_strict_mono_witness :
    ∃ v1 v2,
      estimateInstantFuelConsumption 3000 20 20 2000 0.9 1 = some v1 ∧
      estimateInstantFuelConsumption 3000 40 20 2000 0.9 1 = some v2 ∧ v1 < v2 :=
  fuel_throttle_strict_mono 3000 20 40 20 2000 0.9 1 (by norm_num) (by norm_num)
    (by norm_num) (by norm_num) (by norm_num) (by norm_num) (by norm_num) (by norm_num)

/-! ## Geometry kernel and numeric formatting (src/functions/maths.py,
src/vbolib.py lines 286-346, src/vbolib.py `format_heading`) -/

/-- Python `%` on floats: floored modulo `a - b * floor(a / b)`. -/
noncomputable def pymod (a b : ℝ) : ℝ :=
  a - b * ⌊a / b⌋

/-- Model of `math.atan2(y, x)`: the angle of the point `(x, y)`, in
`(-π, π]`, which is `Complex.arg ⟨x, y⟩` (real numbers carry no signed
zero, so the `atan2(±0.0, ·)` distinctions collapse). -/
noncomputable def atan2 (y x : ℝ) : ℝ :=
  Complex.arg ⟨x, y⟩

/-- src/functions/maths.py `compute_heading` (the radian-correct variant,
identical to the one nested in src/vbolib.py `add_gps_heading_column`):
initial great-circle bearing between two latitude/longitude pairs in
degrees, normalized to `[0, 360)`. -/
noncomputable def computeHeading (lat1 lon1 lat2 lon2 : ℝ) : ℝ :=
  let lat1Rad := lat1 * (Real.pi / 180)
  let lat2Rad := lat2 * (Real.pi / 180)
  let dlonRad := (lon2 - lon1) * (Real.pi / 180)
  let x := Real.sin dlonRad * Real.cos lat2Rad
  let y := Real.cos lat1Rad * Real.sin lat2Rad -
    Real.sin lat1Rad * Real.cos lat2Rad * Real.cos dlonRad
  let initialBearing := atan2 x y
  pymod (initialBearing * (180 / Real.pi) + 360) 360

/-- Model of Python `f"{x:.2f}"`: the value rounded to centesimal
precision, rendered with a sign, the integer digits, and exactly two
fractional digits. -/
noncomputable def fmtFixed2 (x : ℝ) : List Char :=
  let n : ℤ := round (x * 100)
  let sign : List Char := if n < 0 then ['-'] else []
  sign ++ natToDigits (n.natAbs / 100) ++
    '.' :: [Nat.digitChar (n.natAbs / 10 % 10), Nat.digitChar (n.natAbs % 10)]

/-- String form of `fmtFixed2`. -/
noncomputable def fmtFixed2Str (x : ℝ) : String :=
  ⟨fmtFixed2 x⟩

/-- src/vbolib.py `format_heading`: `f"{heading:05.2f}"` — two fractional
digits, total width at least 5, zero-padded after the sign. -/
noncomputable def formatHeading (x : ℝ) : String :=
  let s := fmtFixed2 x
  if 5 ≤ s.length then ⟨s⟩
  else if s.head? = some '-' then ⟨'-' :: (List.replicate (5 - s.length) '0' ++ s.tail)⟩
  else ⟨List.replicate (5 - s.length) '0' ++ s⟩

/-! ## The numpy convolution used by the heading smoother -/

/-- `np.convolve(a, v)` (full mode): output length `len(a) + len(v) - 1`,
entry `n` is `∑ a[j] * v[n - j]` over the valid `j`. -/
noncomputable def convFull (a v : List ℂ) : List ℂ :=
  (List.range (a.length + v.length - 1)).map (fun n =>
    ∑ j ∈ Finset.range (n + 1), a.getD j 0 * v.getD (n - j) 0)

/-- `np.convolve(a, v, mode='same')`: the centered slice of the full
convolution, of length `max (len a) (len v)`. -/
noncomputable def convSame (a v : List ℂ) : List ℂ :=
  ((convFull a v).drop ((min a.length v.length - 1) / 2)).take (max a.length v.length)

/-! ## Column transforms (src/vbolib.py lines 271-469) -/

/-- `len(next(iter(data.values()))) if data else 0`: row count taken from
the first data column. -/
def dataNval : Data → ℕ
  | [] => 0
  | (_, v) :: _ => v.length

/-- Sequencing of fallible per-element computations, stopping at the first
raise (a Python accumulation loop over a local list). -/
def exceptMapList {α β : Type} (g : α → Except PyErr β) : List α → Except PyErr (List β)
  | [] => .ok []
  | a :: as =>
    match g a with
    | .error e => .error e
    | .ok b =>
      match exceptMapList g as with
      | .error e => .error e
      | .ok bs => .ok (b :: bs)

/-- One raw heading row of `gps_heading_function`: 0.0 for row 0, else the
bearing between the row `i-1` and row `i` coordinates. -/
noncomputable def rawHeadingAt (d : Data) (latCol longCol : String) (i : ℕ) :
    Except PyErr ℝ :=
  if i = 0 then .ok 0
  else
    match readFloat d latCol (i - 1) with
    | .error e => .error e
    | .ok lat1 =>
      match readFloat d longCol (i - 1) with
      | .error e => .error e
      | .ok lon1 =>
        match readFloat d latCol i with
        | .error e => .error e
        | .ok lat2 =>
          match readFloat d longCol i with
          | .error e => .error e
          | .ok lon2 => .ok (computeHeading lat1 lon1 lat2 lon2)

/-- The circular smoothing of `gps_heading_function`: unit phasors of the
raw headings, convolved (same mode) with a uniform kernel of the window
size, angles back in degrees normalized to `[0, 360)`. -/
noncomputable def smoothHeadings (raws : List ℝ) (w : ℕ) : List ℝ :=
  let phasors := raws.map (fun θ => Complex.exp (Complex.I * ((θ * (Real.pi / 180) : ℝ) : ℂ)))
  let kernel := List.replicate w (((w : ℂ))⁻¹)
  let smoothedPhasors := convSame phasors kernel
  smoothedPhasors.map (fun z => pymod (z.arg * (180 / Real.pi) + 360) 360)

/-- The nested `gps_heading_function` of src/vbolib.py
`add_gps_heading_column`: if the heading column is absent, compute the raw
headings over `self.nval` rows, smooth them circularly (unless there are no
rows), and insert the formatted column.  A `float()` failure raises before
any mutation. -/
noncomputable def gpsHeadingFn (nval : ℕ) (headingCol latCol longCol : String) (w : ℕ)
    (d : Data) : Data × Option PyErr :=
  if headingCol ∈ dataKeys d then (d, none)
  else
    match exceptMapList (rawHeadingAt d latCol longCol) (List.range nval) with
    | .error e => (d, some e)
    | .ok raws =>
      let smoothed := if raws.isEmpty then [] else smoothHeadings raws w
      (dataInsert d headingCol (smoothed.map (fun h => formatHeading h)), none)

/-- src/vbolib.py `add_gps_heading_column`: skip (warn) when the heading
column already exists, else register the gps heading transform. -/
noncomputable def addGpsHeadingColumn (t : Table) (headingCol longCol latCol : String)
    (smoothingWindow : ℕ) : Table × Option PyErr :=
  if headingCol ∈ dataKeys t.data then (t, none)
  else addComputedColumn t headingCol
    (gpsHeadingFn t.nval headingCol latCol longCol smoothingWindow)

/-- One raw rotation-speed row of `compute_rotation_speed`: 0.0 for row 0,
else the shortest signed heading difference `(Δ+540) % 360 - 180` divided
by the elapsed seconds (`1e-6` when the two row times coincide; the
denominator is nonzero in both branches, so the division cannot raise). -/
noncomputable def rawRotationAt (d : Data) (headingCol timeCol : String) (i : ℕ) :
    Except PyErr ℝ :=
  if i = 0 then .ok 0
  else
    match readFloat d headingCol (i - 1) with
    | .error e => .error e
    | .ok prevHeading =>
      match readFloat d headingCol i with
      | .error e => .error e
      | .ok currHeading =>
        match readMs d timeCol (i - 1) with
        | .error e => .error e
        | .ok pm =>
          match readMs d timeCol i with
          | .error e => .error e
          | .ok cm =>
            let deltaHeading := pymod (currHeading - prevHeading + 540) 360 - 180
            let prevTime := (pm : ℝ) / 1000
            let currTime := (cm : ℝ) / 1000
            let dt := if currTime ≠ prevTime then currTime - prevTime else 1e-6
            .ok (deltaHeading / dt)

/-- The arithmetic moving average of `compute_rotation_speed`: for each row
the slice `[max 0 (i - w/2), min nval (i + w/2 + 1))` of the raw values,
summed and divided by the slice length (which is at least 1 for `i < nval`),
formatted to two decimal places. -/
noncomputable def movingAvgFmt (raws : List ℝ) (window nval : ℕ) : List String :=
  (List.range nval).map (fun i =>
    let start := i - window / 2
    let stop := min nval (i + window / 2 + 1)
    let seg := (raws.drop start).take (stop - start)
    fmtFixed2Str (seg.sum / ((stop - start : ℕ) : ℝ)))

/-- src/functions/compute.py `compute_rotation_speed` (identical to the
closure nested in src/vbolib.py `add_rotation_speed_from_heading_column`):
raw yaw rates from the heading and time columns, then a clipped centered
moving average with window `max 1 w`. -/
noncomputable def computeRotationSpeed (rotCol headingCol timeCol : String) (w : ℕ)
    (d : Data) : Data × Option PyErr :=
  let nval := dataNval d
  match exceptMapList (rawRotationAt d headingCol timeCol) (List.range nval) with
  | .error e => (d, some e)
  | .ok raws => (dataInsert d rotCol (movingAvgFmt raws (max 1 w) nval), none)

/-- src/vbolib.py `add_rotation_speed_from_heading_column`: no-op when the
rotation column exists; `KeyError` when the time column is missing; if the
heading column is missing, synthesize it via `add_gps_heading_column` (with
its default long/lat columns and window 5) and remove it again after the
rotation column is added. -/
noncomputable def addRotationSpeedFromHeadingColumn (t : Table)
    (timeCol headingCol rotCol : String) (smoothingWindow : ℕ) : Table × Option PyErr :=
  if rotCol ∈ dataKeys t.data then (t, none)
  else if timeCol ∉ dataKeys t.data then (t, some (.keyError timeCol))
  else if headingCol ∈ dataKeys t.data then
    addComputedColumn t rotCol (computeRotationSpeed rotCol headingCol timeCol smoothingWindow)
  else
    let r := addGpsHeadingColumn t headingCol "long" "lat" 5
    match r.2 with
    | some e => (r.1, some e)
    | none =>
      let r2 := addComputedColumn r.1 rotCol
        (computeRotationSpeed rotCol headingCol timeCol smoothingWindow)
      match r2.2 with
      | some e => (r2.1, some e)
      | none => (removeColumn r2.1 headingCol headingCol, none)

/-- The row loop of `compute_oversteer`: row 0 yields 0.0, later rows add
the rotation-speed and gyro-z floats; the rows appended before a raise
persist.  Every value goes through `format_heading`. -/
noncomputable def oversteerValsGo (d : Data) (rotCol gyroCol : String) :
    List ℕ → List String × Option PyErr
  | [] => ([], none)
  | i :: rest =>
    if i = 0 then
      let r := oversteerValsGo d rotCol gyroCol rest
      (formatHeading 0 :: r.1, r.2)
    else
      match readFloat d rotCol i with
      | .error e => ([], some e)
      | .ok rot =>
        match readFloat d gyroCol i with
        | .error e => ([], some e)
        | .ok gyroZ =>
          let r := oversteerValsGo d rotCol gyroCol rest
          (formatHeading (rot + gyroZ) :: r.1, r.2)

/-- The nested `compute_oversteer` of src/vbolib.py `add_oversteer_column`
(identical to src/functions/compute.py `compute_oversteer`): assigns the
oversteer column first and fills it row by row, so a raise leaves the
prefix in place. -/
noncomputable def computeOversteer (rotCol gyroCol oversteerCol : String)
    (d : Data) : Data × Option PyErr :=
  let nval := dataNval d
  let r := oversteerValsGo d rotCol gyroCol (List.range nval)
  (dataInsert d oversteerCol r.1, r.2)

/-- src/vbolib.py `add_oversteer_column`: no-op when the oversteer column
exists; `KeyError` when the gyro column is missing; if the rotation-speed
column is missing, synthesize it via `add_rotation_speed_from_heading_column`
(with its default time and heading columns and window 9) and remove it again
after the oversteer column is added. -/
noncomputable def addOversteerColumn (t : Table) (rotCol gyroCol oversteerCol : String) :
    Table × Option PyErr :=
  if oversteerCol ∈ dataKeys t.data then (t, none)
  else if gyroCol ∉ dataKeys t.data then (t, some (.keyError gyroCol))
  else if rotCol ∈ dataKeys t.data then
    addComputedColumn t oversteerCol (computeOversteer rotCol gyroCol oversteerCol)
  else
    let r := addRotationSpeedFromHeadingColumn t "time" "heading_gps" rotCol 9
    match r.2 with
    | some e => (r.1, some e)
    | none =>
      let r2 := addComputedColumn r.1 oversteerCol
        (computeOversteer rotCol gyroCol oversteerCol)
      match r2.2 with
      | some e => (r2.1, some e)
      | none => (removeColumn r2.1 rotCol rotCol, none)


theorem pymod_eq_mul_fract (a : ℝ) {b : ℝ} (hb : b ≠ 0) :
    pymod a b = b * Int.fract (a / b) := by
  unfold pymod Int.fract
  rw [mul_sub, mul_div_cancel₀ a hb]

theorem pymod_mem_Ico (a : ℝ) {b : ℝ} (hb : 0 < b) : pymod a b ∈ Set.Ico 0 b := by
  rw [pymod_eq_mul_fract a (ne_of_gt hb)]
  constructor
  · exact mul_nonneg hb.le (Int.fract_nonneg _)
  · calc b * Int.fract (a / b) < b * 1 :=
        mul_lt_mul_of_pos_left (Int.fract_lt_one _) hb
      _ = b := mul_one b

theorem pymod_eq_sub {a b : ℝ} (hb : 0 < b) (h1 : b ≤ a) (h2 : a < 2 * b) :
    pymod a b = a - b := by
  have hfl : ⌊a / b⌋ = 1 := by
    rw [Int.floor_eq_iff]
    constructor
    · push_cast
      rw [le_div_iff hb]
      linarith
    · push_cast
      rw [div_lt_iff hb]
      linarith
  unfold pymod
  rw [hfl]
  push_cast
  ring

/-- C7: `compute_heading` always lands in [0, 360); a due-north move
(greater latitude, same longitude, latitudes within ±90°) gives bearing
exactly 0; a due-east move on the equator gives bearing exactly 90; and a
due-east move at any non-polar latitude gives a bearing strictly inside
(0, 180) (the eastern half), which is the exactly provable content of the
spec's "approximately 90°". -/
theorem compute_heading_range_north_east :
    (∀ lat1 lon1 lat2 lon2 : ℝ, computeHeading lat1 lon1 lat2 lon2 ∈ Set.Ico (0 : ℝ) 360) ∧
    (∀ lat1 lat2 lon : ℝ, -90 ≤ lat1 → lat1 < lat2 → lat2 ≤ 90 →
      computeHeading lat1 lon lat2 lon = 0) ∧
    (∀ lon1 lon2 : ℝ, lon1 < lon2 → lon2 - lon1 < 180 →
      computeHeading 0 lon1 0 lon2 = 90) ∧
    (∀ lat lon1 lon2 : ℝ, -90 < lat → lat < 90 → lon1 < lon2 → lon2 - lon1 < 180 →
      computeHeading lat lon1 lat lon2 ∈ Set.Ioo (0 : ℝ) 180) := by
  have hpi := Real.pi_pos
  refine ⟨?_, ?_, ?_, ?_⟩
  · intro lat1 lon1 lat2 lon2
    exact pymod_mem_Ico _ (by norm_num)
  · intro lat1 lat2 lon h1 h2 h3
    simp only [computeHeading, sub_self, zero_mul, Real.sin_zero, Real.cos_zero, mul_one]
    have hy : Real.cos (lat1 * (Real.pi / 180)) * Real.sin (lat2 * (Real.pi / 180)) -
        Real.sin (lat1 * (Real.pi / 180)) * Real.cos (lat2 * (Real.pi / 180)) =
        Real.sin (lat2 * (Real.pi / 180) - lat1 * (Real.pi / 180)) := by
      rw [Real.sin_sub]; ring
    rw [hy]
    have hθ1 : 0 ≤ lat2 * (Real.pi / 180) - lat1 * (Real.pi / 180) := by nlinarith
    have hθ2 : lat2 * (Real.pi / 180) - lat1 * (Real.pi / 180) ≤ Real.pi := by nlinarith
    have hsin : 0 ≤ Real.sin (lat2 * (Real.pi / 180) - lat1 * (Real.pi / 180)) :=
      Real.sin_nonneg_of_nonneg_of_le_pi hθ1 hθ2
    have harg : atan2 0 (Real.sin (lat2 * (Real.pi / 180) - lat1 * (Real.pi / 180))) = 0 := by
      unfold atan2
      exact Complex.arg_eq_zero_iff.mpr ⟨hsin, rfl⟩
    rw [harg, zero_mul, zero_add, pymod_eq_sub (by norm_num) (by norm_num) (by norm_num)]
    norm_num
  · intro lon1 lon2 h1 h2
    simp only [computeHeading, zero_mul, Real.sin_zero, Real.cos_zero, mul_one, one_mul,
      sub_self]
    have hd1 : 0 < (lon2 - lon1) * (Real.pi / 180) := by nlinarith
    have hd2 : (lon2 - lon1) * (Real.pi / 180) < Real.pi := by nlinarith
    have hx : 0 < Real.sin ((lon2 - lon1) * (Real.pi / 180)) :=
      Real.sin_pos_of_pos_of_lt_pi hd1 hd2
    have harg : atan2 (Real.sin ((lon2 - lon1) * (Real.pi / 180))) 0 = Real.pi / 2 := by
      unfold atan2
      apply Complex.arg_eq_pi_div_two_iff.mpr
      exact ⟨rfl, hx⟩
    rw [harg]
    have h90 : Real.pi / 2 * (180 / Real.pi) = 90 := by
      field_simp
      ring
    rw [h90, pymod_eq_sub (by norm_num) (by norm_num) (by norm_num)]
    norm_num
  · intro lat lon1 lon2 hl1 hl2 h1 h2
    simp only [computeHeading]
    have hd1 : 0 < (lon2 - lon1) * (Real.pi / 180) := by nlinarith
    have hd2 : (lon2 - lon1) * (Real.pi / 180) < Real.pi := by nlinarith
    have hcos : 0 < Real.cos (lat * (Real.pi / 180)) := by
      apply Real.cos_pos_of_mem_Ioo
      constructor <;> nlinarith
    have hx : 0 < Real.sin ((lon2 - lon1) * (Real.pi / 180)) * Real.cos (lat * (Real.pi / 180)) :=
      mul_pos (Real.sin_pos_of_pos_of_lt_pi hd1 hd2) hcos
    set xv := Real.sin ((lon2 - lon1) * (Real.pi / 180)) * Real.cos (lat * (Real.pi / 180)) with hxv
    set yv := Real.cos (lat * (Real.pi / 180)) * Real.sin (lat * (Real.pi / 180)) -
      Real.sin (lat * (Real.pi / 180)) * Real.cos (lat * (Real.pi / 180)) *
        Real.cos ((lon2 - lon1) * (Real.pi / 180)) with hyv
    have him : (0 : ℝ) ≤ (⟨yv, xv⟩ : ℂ).im := hx.le
    have hargpos : 0 < atan2 xv yv := by
      unfold atan2
      rcases lt_or_eq_of_le (Complex.arg_nonneg_iff.mpr him) with h | h
      · exact h
      · exfalso
        have h2 := Complex.arg_eq_zero_iff.mp h.symm
        have h3 : (⟨yv, xv⟩ : ℂ).im = 0 := h2.2
        exact absurd h3 (ne_of_gt hx)
    have harglt : atan2 xv yv < Real.pi := by
      unfold atan2
      apply Complex.arg_lt_pi_iff.mpr
      exact Or.inr (ne_of_gt hx)
    have hv1 : 0 < atan2 xv yv * (180 / Real.pi) := by positivity
    have hv2 : atan2 xv yv * (180 / Real.pi) < 180 := by
      have : atan2 xv yv * (180 / Real.pi) < Real.pi * (180 / Real.pi) := by
        apply mul_lt_mul_of_pos_right harglt
        positivity
      calc atan2 xv yv * (180 / Real.pi) < Real.pi * (180 / Real.pi) := this
        _ = 180 := by field_simp
    rw [pymod_eq_sub (by norm_num) (by linarith) (by linarith)]
    constructor <;> linarith


/-- Witness for C7: the north, equator-east and non-polar-east cases at
concrete coordinates. -/
theorem compute_heading_range_north_east_witness :
    computeHeading 10 20 30 40 ∈ Set.Ico (0 : ℝ) 360 ∧
    computeHeading 0 7 45 7 = 0 ∧
    computeHeading 0 0 0 90 = 90 ∧
    computeHeading 45 0 45 90 ∈ Set.Ioo (0 : ℝ) 180 :=
  ⟨compute_heading_range_north_east.1 10 20 30 40,
    compute_heading_range_north_east.2.1 0 45 7 (by norm_num) (by norm_num) (by norm_num),
    compute_heading_range_north_east.2.2.1 0 90 (by norm_num) (by norm_num),
    compute_heading_range_north_east.2.2.2 45 0 90 (by norm_num) (by norm_num)
      (by norm_num) (by norm_num)⟩


theorem readFloat_eval (d : Data) (col : String) (i : ℕ) (s : String) (q : ℚ)
    (hc : readCellStr d col i = .ok s) (hp : parseRatStr s.data = some q) :
    readFloat d col i = .ok ((q : ℝ)) := by
  simp only [readFloat, hc, parseFloatStr, hp, Option.map_some]
  rfl


theorem drop_range' : ∀ (k s m : ℕ), (List.range' s m).drop k = List.range' (s + k) (m - k)
  | 0, s, m => by simp
  | k + 1, s, 0 => by simp
  | k + 1, s, m + 1 => by
    rw [List.range'_succ, List.drop_succ_cons, drop_range' k (s + 1) m]
    congr 1 <;> omega

theorem take_range' : ∀ (k s m : ℕ), (List.range' s m).take k = List.range' s (min k m)
  | 0, s, m => by simp
  | k + 1, s, 0 => by simp
  | k + 1, s, m + 1 => by
    rw [List.range'_succ, List.take_succ_cons, take_range' k (s + 1) m]
    rw [show min (k + 1) (m + 1) = min k m + 1 from by omega, List.range'_succ]

theorem sum_map_range' (f : ℕ → ℝ) : ∀ (m s : ℕ),
    ((List.range' s m).map f).sum = ∑ j ∈ Finset.Ico s (s + m), f j
  | 0, s => by simp
  | m + 1, s => by
    rw [List.range'_1_concat, List.map_append, List.sum_append, sum_map_range' f m s]
    rw [show s + (m + 1) = (s + m) + 1 from rfl, Finset.sum_Ico_succ_top (by omega)]
    simp

theorem sum_slice_map_range (f : ℕ → ℝ) (n s k : ℕ) (hsk : s + k ≤ n) :
    ((((List.range n).map f).drop s).take k).sum = ∑ j ∈ Finset.Ico s (s + k), f j := by
  rw [← List.map_drop, ← List.map_take, List.range_eq_range', drop_range', take_range',
    show (0 : ℕ) + s = s from by omega, sum_map_range']
  congr 2
  omega

theorem exceptMapList_ok {α β : Type} (g : α → Except PyErr β) (G : α → β) :
    ∀ l : List α, (∀ a ∈ l, g a = .ok (G a)) → exceptMapList g l = .ok (l.map G)
  | [], _ => rfl
  | a :: as, h => by
    simp only [exceptMapList, h a (by simp),
      exceptMapList_ok g G as (fun x hx => h x (by simp [hx])), List.map_cons]

/-- Spec-side raw yaw rate, written from the words of the claim: row 0 is
0; row i+1 is the wrapped heading difference `(Δ + 540) mod 360 - 180`
divided by the elapsed seconds, with `1e-6` substituted when the two
timestamps coincide. -/
noncomputable def rotationRawSpec (H : ℕ → ℝ) (T : ℕ → ℤ) : ℕ → ℝ
  | 0 => 0
  | i + 1 =>
    (pymod (H (i + 1) - H i + 540) 360 - 180) /
      (if T (i + 1) = T i then 1e-6 else ((T (i + 1) : ℝ) - (T i : ℝ)) / 1000)

/-- Spec-side smoothed value: the centered moving average of the raw values
over the index window `[i - w/2, i + w/2]` clipped to the table bounds,
divided by the actual number of indices in the clipped window. -/
noncomputable def rotationSmoothedSpec (H : ℕ → ℝ) (T : ℕ → ℤ) (w n i : ℕ) : ℝ :=
  (∑ j ∈ Finset.Icc (i - w / 2) (min (n - 1) (i + w / 2)), rotationRawSpec H T j) /
    (((Finset.Icc (i - w / 2) (min (n - 1) (i + w / 2))).card : ℕ) : ℝ)

/-- Spec-side column: each smoothed value formatted to 2 decimal places. -/
noncomputable def rotationSpecVals (H : ℕ → ℝ) (T : ℕ → ℤ) (w n : ℕ) : List String :=
  (List.range n).map (fun i => fmtFixed2Str (rotationSmoothedSpec H T w n i))

/-- C6: `compute_rotation_speed` computes exactly the claimed algorithm.
Given a table whose heading column parses as floats `H i` and whose time
column decodes to `T i` milliseconds, the added column equals, row for row,
the formatted centered moving average (window `[i - w/2, i + w/2]` clipped
to bounds, divided by the actual window size) of the raw series whose row 0
is 0 and whose row i+1 is `((H(i+1) - H i + 540) mod 360 - 180)` over the
elapsed seconds (`1e-6` when the timestamps coincide). -/
theorem compute_rotation_speed_matches_spec (d : Data) (rotCol headingCol timeCol : String)
    (w : ℕ) (hw : 1 ≤ w) (H : ℕ → ℝ) (T : ℕ → ℤ)
    (hH : ∀ i, i < dataNval d → readFloat d headingCol i = .ok (H i))
    (hT : ∀ i, i < dataNval d → readMs d timeCol i = .ok (T i)) :
    computeRotationSpeed rotCol headingCol timeCol w d =
      (dataInsert d rotCol (rotationSpecVals H T w (dataNval d)), none) := by
  have hn : ∀ i ∈ List.range (dataNval d),
      rawRotationAt d headingCol timeCol i = .ok (rotationRawSpec H T i) := by
    intro i hi
    rw [List.mem_range] at hi
    match i with
    | 0 => simp [rawRotationAt, rotationRawSpec]
    | k + 1 =>
      have hk : k < dataNval d := by omega
      simp only [rawRotationAt, if_neg (Nat.succ_ne_zero k), Nat.add_sub_cancel,
        hH k hk, hH (k + 1) hi, hT k hk, hT (k + 1) hi]
      simp only [rotationRawSpec]
      congr 1
      by_cases he : T (k + 1) = T k
      · rw [if_neg (by rw [he]; simp), if_pos he]
      · rw [if_pos, if_neg he]
        · congr 1
          ring
        · intro hcon
          apply he
          field_simp at hcon
          exact_mod_cast hcon
  have hmap := exceptMapList_ok _ (rotationRawSpec H T) (List.range (dataNval d)) hn
  simp only [computeRotationSpeed, hmap]
  congr 2
  rw [Nat.max_eq_right hw]
  unfold movingAvgFmt rotationSpecVals
  apply List.map_congr_left
  intro i hi
  rw [List.mem_range] at hi
  have hn1 : 1 ≤ dataNval d := by omega
  dsimp only
  congr 1
  have hstartle : i - w / 2 ≤ i := Nat.sub_le i (w / 2)
  have hstoplt : i < min (dataNval d) (i + w / 2 + 1) := by omega
  have hstople : min (dataNval d) (i + w / 2 + 1) ≤ dataNval d := by omega
  rw [sum_slice_map_range (rotationRawSpec H T) (dataNval d) (i - w / 2)
    (min (dataNval d) (i + w / 2 + 1) - (i - w / 2)) (by omega)]
  rw [show (i - w / 2) + (min (dataNval d) (i + w / 2 + 1) - (i - w / 2)) =
    min (dataNval d) (i + w / 2 + 1) from by omega]
  rw [show min (dataNval d) (i + w / 2 + 1) = (min (dataNval d - 1) (i + w / 2)) + 1 from by omega]
  rw [Nat.Ico_succ_right]
  unfold rotationSmoothedSpec
  congr 1
  rw [Nat.card_Icc]


/-- Witness for C6 at a concrete three-row table. -/
theorem compute_rotation_speed_matches_spec_witness :
    computeRotationSpeed "rotation_speed_deg_per_s" "heading_gps" "time" 9
      [("time", ["000000.00", "000001.00", "000002.00"]),
        ("heading_gps", ["10.00", "20.00", "30.00"])] =
      (dataInsert
        [("time", ["000000.00", "000001.00", "000002.00"]),
          ("heading_gps", ["10.00", "20.00", "30.00"])]
        "rotation_speed_deg_per_s"
        (rotationSpecVals (fun i => ((([(10 : ℚ), 20, 30].getD i 0) : ℚ) : ℝ))
          (fun i => [(0 : ℤ), 1000, 2000].getD i 0) 9
          (dataNval
            [("time", ["000000.00", "000001.00", "000002.00"]),
              ("heading_gps", ["10.00", "20.00", "30.00"])])), none) := by
  apply compute_rotation_speed_matches_spec
  · norm_num
  · intro i hi
    have h3 : i < 3 := hi
    interval_cases i
    · exact readFloat_eval _ _ _ "10.00" 10 (by decide) (by decide)
    · exact readFloat_eval _ _ _ "20.00" 20 (by decide) (by decide)
    · exact readFloat_eval _ _ _ "30.00" 30 (by decide) (by decide)
  · intro i hi
    have h3 : i < 3 := hi
    interval_cases i
    · decide
    · decide
    · decide


/-! Data-mapping lemmas -/

theorem dataKeys_append (d1 d2 : Data) : dataKeys (d1 ++ d2) = dataKeys d1 ++ dataKeys d2 :=
  List.map_append _ _ _

theorem dataInsert_not_mem : ∀ (d : Data) (k : String) (v : List String),
    k ∉ dataKeys d → dataInsert d k v = d ++ [(k, v)]
  | [], _, _, _ => rfl
  | (k1, v1) :: rest, k, v, h => by
    have hk : k1 ≠ k := by
      intro he
      exact h (by simp [dataKeys, he])
    simp only [dataInsert, if_neg hk, List.cons_append]
    rw [dataInsert_not_mem rest k v (fun hm => h (by simp [dataKeys] at hm ⊢; exact Or.inr hm))]

theorem dataLookup_not_mem : ∀ (d : Data) (k : String), k ∉ dataKeys d → dataLookup d k = none
  | [], _, _ => rfl
  | (k1, v1) :: rest, k, h => by
    have hk : k1 ≠ k := fun he => h (by simp [dataKeys, he])
    simp only [dataLookup, if_neg hk]
    exact dataLookup_not_mem rest k (fun hm => h (by simp [dataKeys] at hm ⊢; exact Or.inr hm))

theorem dataLookup_append_not_mem (d1 d2 : Data) (k : String) (h : k ∉ dataKeys d1) :
    dataLookup (d1 ++ d2) k = dataLookup d2 k := by
  induction d1 with
  | nil => rfl
  | cons p rest ih =>
    obtain ⟨k1, v1⟩ := p
    have hk : k1 ≠ k := fun he => h (by simp [dataKeys, he])
    simp only [List.cons_append, dataLookup, if_neg hk]
    exact ih (fun hm => h (by simp [dataKeys] at hm ⊢; exact Or.inr hm))

theorem dataLookup_append_self (d : Data) (k : String) (v : List String)
    (h : k ∉ dataKeys d) : dataLookup (d ++ [(k, v)]) k = some v := by
  rw [dataLookup_append_not_mem d _ k h]
  simp [dataLookup]

theorem dataErase_cons_self (k : String) (v : List String) (rest : Data) :
    dataErase ((k, v) :: rest) k = rest := by
  simp [dataErase]

theorem dataErase_append_not_mem (d1 d2 : Data) (k : String) (h : k ∉ dataKeys d1) :
    dataErase (d1 ++ d2) k = d1 ++ dataErase d2 k := by
  induction d1 with
  | nil => rfl
  | cons p rest ih =>
    obtain ⟨k1, v1⟩ := p
    have hk : k1 ≠ k := fun he => h (by simp [dataKeys, he])
    simp only [List.cons_append, dataErase, if_neg hk]
    show (k1, v1) :: dataErase (rest ++ d2) k = (k1, v1) :: (rest ++ dataErase d2 k)
    rw [ih (fun hm => h (by simp [dataKeys] at hm ⊢; exact Or.inr hm))]

/-! Round-trip: parsing the output of the fixed-point formatters succeeds -/

theorem natToDigitsAux_spec : ∀ (fuel n : ℕ), n < fuel →
    natToDigitsAux fuel n ≠ [] ∧ ∀ c ∈ natToDigitsAux fuel n, c.isDigit = true := by
  intro fuel
  induction fuel with
  | zero => intro n h; omega
  | succ f ih =>
    intro n h
    by_cases h10 : n < 10
    · simp only [natToDigitsAux, if_pos h10]
      refine ⟨by simp, ?_⟩
      intro c hc
      simp only [List.mem_singleton] at hc
      subst hc
      exact digitChar_isDigit h10
    · simp only [natToDigitsAux, if_neg h10]
      have hdiv : n / 10 < f := by omega
      obtain ⟨h1, h2⟩ := ih (n / 10) hdiv
      refine ⟨by simp [h1], ?_⟩
      intro c hc
      rw [List.mem_append] at hc
      rcases hc with hc | hc
      · exact h2 c hc
      · simp only [List.mem_singleton] at hc
        subst hc
        exact digitChar_isDigit (Nat.mod_lt n (by norm_num))

theorem natToDigits_ne_nil (n : ℕ) : natToDigits n ≠ [] :=
  (natToDigitsAux_spec (n + 1) n (by omega)).1

theorem natToDigits_digits (n : ℕ) : ∀ c ∈ natToDigits n, c.isDigit = true :=
  (natToDigitsAux_spec (n + 1) n (by omega)).2

theorem takeWhile_append_all {p : Char → Bool} :
    ∀ (l1 l2 : List Char), (∀ c ∈ l1, p c = true) →
      (l1 ++ l2).takeWhile p = l1 ++ l2.takeWhile p
  | [], _, _ => rfl
  | c :: rest, l2, h => by
    simp only [List.cons_append, List.takeWhile_cons, h c (by simp)]
    rw [takeWhile_append_all rest l2 (fun x hx => h x (by simp [hx]))]
    simp

theorem dropWhile_append_all {p : Char → Bool} :
    ∀ (l1 l2 : List Char), (∀ c ∈ l1, p c = true) →
      (l1 ++ l2).dropWhile p = l2.dropWhile p
  | [], _, _ => rfl
  | c :: rest, l2, h => by
    simp only [List.cons_append, List.dropWhile_cons, h c (by simp)]
    exact dropWhile_append_all rest l2 (fun x hx => h x (by simp [hx]))

/-- Strings of the shape `sign? digits+ '.' digits+` (the output shape of
both fixed-point formatters). -/
def DecimalShape (l : List Char) : Prop :=
  ∃ sgn ds fs : List Char, (sgn = [] ∨ sgn = ['-']) ∧ ds ≠ [] ∧
    (∀ c ∈ ds, c.isDigit = true) ∧ fs ≠ [] ∧ (∀ c ∈ fs, c.isDigit = true) ∧
    l = sgn ++ ds ++ '.' :: fs

theorem parseUnsignedRat_digits_isSome (ds fs : List Char) (hds : ds ≠ [])
    (hdsd : ∀ c ∈ ds, c.isDigit = true) (hfs : fs ≠ [])
    (hfsd : ∀ c ∈ fs, c.isDigit = true) :
    (parseUnsignedRat (ds ++ '.' :: fs)).isSome = true := by
  have hall : ∀ c ∈ ds, (fun c => decide (c ≠ '.')) c = true := by
    intro c hc
    simp only [decide_eq_true_eq]
    exact isDigit_ne_dot (hdsd c hc)
  have htake : (ds ++ '.' :: fs).takeWhile (fun c => decide (c ≠ '.')) = ds := by
    rw [takeWhile_append_all ds ('.' :: fs) hall]
    simp [List.takeWhile_cons]
  have hdrop : (ds ++ '.' :: fs).dropWhile (fun c => decide (c ≠ '.')) = '.' :: fs := by
    rw [dropWhile_append_all ds ('.' :: fs) hall]
    simp [List.dropWhile_cons]
  simp only [parseUnsignedRat, htake, hdrop, parseNatDigits_of_digits hds hdsd,
    parseNatDigits_of_digits hfs hfsd, Option.isSome_some]

theorem parseRatStr_of_decimalShape (l : List Char) (h : DecimalShape l) :
    (parseRatStr l).isSome = true := by
  obtain ⟨sgn, ds, fs, hsgn, hds, hdsd, hfs, hfsd, hl⟩ := h
  subst hl
  rcases hsgn with h0 | h0 <;> subst h0
  · simp only [List.nil_append]
    match ds, hds with
    | c :: rest, _ =>
      have hcd : c.isDigit = true := hdsd c (by simp)
      simp only [List.cons_append, parseRatStr, if_neg (isDigit_ne_minus hcd),
        if_neg (isDigit_ne_plus hcd)]
      have := parseUnsignedRat_digits_isSome (c :: rest) fs (by simp) hdsd hfs hfsd
      simpa using this
  · have hps : parseRatStr ('-' :: (ds ++ '.' :: fs)) =
        (parseUnsignedRat (ds ++ '.' :: fs)).map (fun q => -q) := by
      simp [parseRatStr]
    simp only [List.cons_append, List.nil_append]
    rw [hps]
    rw [show (Option.map (fun q : ℚ => -q) (parseUnsignedRat (ds ++ '.' :: fs))).isSome =
      (parseUnsignedRat (ds ++ '.' :: fs)).isSome from by
        cases parseUnsignedRat (ds ++ '.' :: fs) <;> rfl]
    exact parseUnsignedRat_digits_isSome ds fs hds hdsd hfs hfsd


theorem decimalShape_fmtFixed2 (x : ℝ) : DecimalShape (fmtFixed2 x) := by
  have hd1 : (Nat.digitChar ((round (x * 100)).natAbs / 10 % 10)).isDigit = true :=
    digitChar_isDigit (Nat.mod_lt _ (by norm_num))
  have hd2 : (Nat.digitChar ((round (x * 100)).natAbs % 10)).isDigit = true :=
    digitChar_isDigit (Nat.mod_lt _ (by norm_num))
  have hfr : ∀ c ∈ [Nat.digitChar ((round (x * 100)).natAbs / 10 % 10),
      Nat.digitChar ((round (x * 100)).natAbs % 10)], c.isDigit = true := by
    intro c hc
    simp only [List.mem_cons, List.not_mem_nil, or_false] at hc
    rcases hc with h | h <;> subst h
    · exact hd1
    · exact hd2
  by_cases hn : round (x * 100) < 0
  · refine ⟨['-'], natToDigits ((round (x * 100)).natAbs / 100),
      [Nat.digitChar ((round (x * 100)).natAbs / 10 % 10),
        Nat.digitChar ((round (x * 100)).natAbs % 10)],
      Or.inr rfl, natToDigits_ne_nil _, natToDigits_digits _, by simp, hfr, ?_⟩
    simp [fmtFixed2, if_pos hn]
  · refine ⟨[], natToDigits ((round (x * 100)).natAbs / 100),
      [Nat.digitChar ((round (x * 100)).natAbs / 10 % 10),
        Nat.digitChar ((round (x * 100)).natAbs % 10)],
      Or.inl rfl, natToDigits_ne_nil _, natToDigits_digits _, by simp, hfr, ?_⟩
    simp [fmtFixed2, if_neg hn]

theorem decimalShape_formatHeading (x : ℝ) : DecimalShape ((formatHeading x).data) := by
  obtain ⟨sgn, ds, fs, hsgn, hds, hdsd, hfs, hfsd, hl⟩ := decimalShape_fmtFixed2 x
  by_cases h5 : 5 ≤ (fmtFixed2 x).length
  · simp only [formatHeading, if_pos h5]
    exact ⟨sgn, ds, fs, hsgn, hds, hdsd, hfs, hfsd, hl⟩
  · rcases hsgn with h0 | h0 <;> subst h0
    · have hhead : ¬ (fmtFixed2 x).head? = some '-' := by
        rw [hl]
        simp only [List.nil_append]
        match ds, hds with
        | c :: rest, _ =>
          have : c.isDigit = true := hdsd c (by simp)
          simp only [List.cons_append, List.head?_cons, Option.some.injEq]
          exact isDigit_ne_minus this
      simp only [formatHeading, if_neg h5, if_neg hhead]
      refine ⟨[], List.replicate (5 - (fmtFixed2 x).length) '0' ++ ds, fs, Or.inl rfl,
        by simp [hds], ?_, hfs, hfsd, ?_⟩
      · intro c hc
        rw [List.mem_append] at hc
        rcases hc with hc | hc
        · rw [List.eq_of_mem_replicate hc]
          decide
        · exact hdsd c hc
      · rw [hl]
        simp [List.append_assoc]
    · have hhead : (fmtFixed2 x).head? = some '-' := by
        rw [hl]
        simp
      simp only [formatHeading, if_neg h5, if_pos hhead]
      have htail : (fmtFixed2 x).tail = ds ++ '.' :: fs := by
        rw [hl]
        simp
      refine ⟨['-'], List.replicate (5 - (fmtFixed2 x).length) '0' ++ ds, fs, Or.inr rfl,
        by simp [hds], ?_, hfs, hfsd, ?_⟩
      · intro c hc
        rw [List.mem_append] at hc
        rcases hc with hc | hc
        · rw [List.eq_of_mem_replicate hc]
          decide
        · exact hdsd c hc
      · rw [htail]
        simp [List.append_assoc]

theorem parse_fmtFixed2_isSome (x : ℝ) : (parseRatStr (fmtFixed2Str x).data).isSome = true :=
  parseRatStr_of_decimalShape _ (decimalShape_fmtFixed2 x)

theorem parse_formatHeading_isSome (x : ℝ) :
    (parseRatStr (formatHeading x).data).isSome = true :=
  parseRatStr_of_decimalShape _ (decimalShape_formatHeading x)

theorem convFull_length (a v : List ℂ) : (convFull a v).length = a.length + v.length - 1 := by
  simp [convFull]

theorem convSame_length (a v : List ℂ) (ha : 1 ≤ a.length) (hv : 1 ≤ v.length) :
    (convSame a v).length = max a.length v.length := by
  have hds : (min a.length v.length - 1) / 2 ≤ min a.length v.length - 1 :=
    Nat.div_le_self _ 2
  simp only [convSame, List.length_take, List.length_drop, convFull_length]
  omega


/-! Column hypotheses and success of the compute functions -/

/-- The column exists, covers `n` rows, and all its values parse as plain
decimal floats. -/
def ColParseOk (d : Data) (col : String) (n : ℕ) : Prop :=
  ∃ vs, dataLookup d col = some vs ∧ n ≤ vs.length ∧
    ∀ s ∈ vs, (parseRatStr s.data).isSome = true

/-- The column exists, covers `n` rows, and all its values decode as
HHMMSS.CC timestamps. -/
def ColTimeOk (d : Data) (col : String) (n : ℕ) : Prop :=
  ∃ vs, dataLookup d col = some vs ∧ n ≤ vs.length ∧
    ∀ s ∈ vs, (hhmmssccToMs s).isSome = true

theorem dataLookup_append_of_some : ∀ (d1 : Data) (d2 : Data) (k : String) (v : List String),
    dataLookup d1 k = some v → dataLookup (d1 ++ d2) k = some v
  | [], _, _, _, h => by simp [dataLookup] at h
  | (k1, v1) :: rest, d2, k, v, h => by
    by_cases hk : k1 = k
    · simp only [dataLookup, if_pos hk] at h ⊢
      exact h
    · simp only [dataLookup, if_neg hk, List.cons_append] at h ⊢
      exact dataLookup_append_of_some rest d2 k v h

theorem dataLookup_mem : ∀ (d : Data) (k : String) (v : List String),
    dataLookup d k = some v → (k, v) ∈ d
  | [], _, _, h => by simp [dataLookup] at h
  | (k1, v1) :: rest, k, v, h => by
    by_cases hk : k1 = k
    · simp only [dataLookup, if_pos hk] at h
      subst hk
      injection h with h
      subst h
      simp
    · simp only [dataLookup, if_neg hk] at h
      exact List.mem_cons_of_mem _ (dataLookup_mem rest k v h)

theorem dataLookup_isSome_of_mem : ∀ (d : Data) (k : String), k ∈ dataKeys d →
    ∃ v, dataLookup d k = some v
  | [], _, h => by simp [dataKeys] at h
  | (k1, v1) :: rest, k, h => by
    by_cases hk : k1 = k
    · exact ⟨v1, by simp [dataLookup, if_pos hk]⟩
    · have : k ∈ dataKeys rest := by
        simp only [dataKeys, List.map_cons, List.mem_cons] at h
        rcases h with h | h
        · exact absurd h.symm hk
        · exact h
      obtain ⟨v, hv⟩ := dataLookup_isSome_of_mem rest k this
      exact ⟨v, by simp [dataLookup, if_neg hk, hv]⟩

theorem dataNval_eq {d : Data} {n : ℕ} (hne : d ≠ [])
    (hl : ∀ p ∈ d, p.2.length = n) : dataNval d = n := by
  match d, hne with
  | (k, v) :: rest, _ => exact hl (k, v) (by simp)

theorem readFloat_isOk {d : Data} {col : String} {n i : ℕ}
    (h : ColParseOk d col n) (hi : i < n) : ∃ x, readFloat d col i = .ok x := by
  obtain ⟨vs, hvs, hlen, hp⟩ := h
  have hgl : i < vs.length := lt_of_lt_of_le hi hlen
  have hget : vs[i]? = some (vs.get ⟨i, hgl⟩) := by
    rw [List.getElem?_eq_getElem hgl]
    rfl
  have hps := hp (vs.get ⟨i, hgl⟩) (vs.get_mem _ _)
  rw [Option.isSome_iff_exists] at hps
  obtain ⟨q, hq⟩ := hps
  refine ⟨(q : ℝ), ?_⟩
  simp only [readFloat, readCellStr, hvs, hget, parseFloatStr, hq, Option.map_some]
  rfl

theorem readMs_isOk {d : Data} {col : String} {n i : ℕ}
    (h : ColTimeOk d col n) (hi : i < n) : ∃ m, readMs d col i = .ok m := by
  obtain ⟨vs, hvs, hlen, hp⟩ := h
  have hgl : i < vs.length := lt_of_lt_of_le hi hlen
  have hget : vs[i]? = some (vs.get ⟨i, hgl⟩) := by
    rw [List.getElem?_eq_getElem hgl]
    rfl
  have hps := hp (vs.get ⟨i, hgl⟩) (vs.get_mem _ _)
  rw [Option.isSome_iff_exists] at hps
  obtain ⟨m, hm⟩ := hps
  refine ⟨m, ?_⟩
  simp only [readMs, readCellStr, hvs, hget, hm]

theorem exceptMapList_ok_exists {α β : Type} (g : α → Except PyErr β) :
    ∀ l : List α, (∀ a ∈ l, ∃ b, g a = .ok b) →
      ∃ bs, exceptMapList g l = .ok bs ∧ bs.length = l.length
  | [], _ => ⟨[], rfl, rfl⟩
  | a :: as, h => by
    obtain ⟨b, hb⟩ := h a (by simp)
    obtain ⟨bs, hbs, hlen⟩ := exceptMapList_ok_exists g as (fun x hx => h x (by simp [hx]))
    exact ⟨b :: bs, by simp only [exceptMapList, hb, hbs], by simp [hlen]⟩

theorem rawHeadingAt_isOk {d : Data} {latCol longCol : String} {n i : ℕ}
    (hlat : ColParseOk d latCol n) (hlong : ColParseOk d longCol n) (hi : i < n) :
    ∃ b, rawHeadingAt d latCol longCol i = .ok b := by
  by_cases h0 : i = 0
  · exact ⟨0, by simp [rawHeadingAt, h0]⟩
  · obtain ⟨x1, hx1⟩ := readFloat_isOk hlat (show i - 1 < n by omega)
    obtain ⟨x2, hx2⟩ := readFloat_isOk hlong (show i - 1 < n by omega)
    obtain ⟨x3, hx3⟩ := readFloat_isOk hlat hi
    obtain ⟨x4, hx4⟩ := readFloat_isOk hlong hi
    exact ⟨computeHeading x1 x2 x3 x4, by
      simp only [rawHeadingAt, if_neg h0, hx1, hx2, hx3, hx4]⟩

theorem smoothHeadings_length (raws : List ℝ) (w : ℕ) (hr : 1 ≤ raws.length)
    (hw : 1 ≤ w) : (smoothHeadings raws w).length = max raws.length w := by
  unfold smoothHeadings
  rw [List.length_map, convSame_length _ _ (by simpa using hr) (by simpa using hw),
    List.length_map, List.length_replicate]

theorem gpsHeadingFn_ok (d : Data) (hCol latCol longCol : String) (w nval : ℕ)
    (hw : 1 ≤ w) (hno : hCol ∉ dataKeys d)
    (hlat : ColParseOk d latCol nval) (hlong : ColParseOk d longCol nval) :
    ∃ hv : List String,
      gpsHeadingFn nval hCol latCol longCol w d = (d ++ [(hCol, hv)], none) ∧
      hv.length = (if nval = 0 then 0 else max nval w) ∧
      ∀ s ∈ hv, ∃ x, s = formatHeading x := by
  obtain ⟨raws, hraws, hlen⟩ := exceptMapList_ok_exists (rawHeadingAt d latCol longCol)
    (List.range nval) (fun i hi => rawHeadingAt_isOk hlat hlong (List.mem_range.mp hi))
  rw [List.length_range] at hlen
  refine ⟨(if raws.isEmpty then [] else smoothHeadings raws w).map formatHeading, ?_, ?_, ?_⟩
  · simp only [gpsHeadingFn, if_neg hno, hraws]
    rw [dataInsert_not_mem d hCol _ hno]
  · by_cases hz : nval = 0
    · have : raws = [] := List.eq_nil_of_length_eq_zero (by omega)
      simp [this, hz]
    · have hne : ¬ raws.isEmpty = true := by
        rw [List.isEmpty_iff]
        intro hcon
        rw [hcon] at hlen
        simp at hlen
        omega
      simp only [if_neg hne, if_neg hz, List.length_map,
        smoothHeadings_length raws w (by omega) hw, hlen]
  · intro s hs
    rw [List.mem_map] at hs
    obtain ⟨x, _, hx⟩ := hs
    exact ⟨x, hx.symm⟩


theorem rawRotationAt_isOk {d : Data} {headingCol timeCol : String} {n i : ℕ}
    (hhead : ColParseOk d headingCol n) (htime : ColTimeOk d timeCol n) (hi : i < n) :
    ∃ b, rawRotationAt d headingCol timeCol i = .ok b := by
  by_cases h0 : i = 0
  · exact ⟨0, by simp [rawRotationAt, h0]⟩
  · obtain ⟨x1, hx1⟩ := readFloat_isOk hhead (show i - 1 < n by omega)
    obtain ⟨x2, hx2⟩ := readFloat_isOk hhead hi
    obtain ⟨m1, hm1⟩ := readMs_isOk htime (show i - 1 < n by omega)
    obtain ⟨m2, hm2⟩ := readMs_isOk htime hi
    refine ⟨(pymod (x2 - x1 + 540) 360 - 180) /
      (if (m2 : ℝ) / 1000 ≠ (m1 : ℝ) / 1000 then (m2 : ℝ) / 1000 - (m1 : ℝ) / 1000
        else 1e-6), ?_⟩
    simp only [rawRotationAt, if_neg h0, hx1, hx2, hm1, hm2]

theorem computeRotationSpeed_ok (d : Data) (rotCol headingCol timeCol : String) (w : ℕ)
    (hhead : ColParseOk d headingCol (dataNval d))
    (htime : ColTimeOk d timeCol (dataNval d))
    (hrot : rotCol ∉ dataKeys d) :
    ∃ sv : List String,
      computeRotationSpeed rotCol headingCol timeCol w d = (d ++ [(rotCol, sv)], none) ∧
      sv.length = dataNval d ∧ ∀ s ∈ sv, ∃ x, s = fmtFixed2Str x := by
  obtain ⟨raws, hraws, _⟩ := exceptMapList_ok_exists (rawRotationAt d headingCol timeCol)
    (List.range (dataNval d)) (fun i hi => rawRotationAt_isOk hhead htime (List.mem_range.mp hi))
  refine ⟨movingAvgFmt raws (max 1 w) (dataNval d), ?_, ?_, ?_⟩
  · simp only [computeRotationSpeed, hraws]
    rw [dataInsert_not_mem d rotCol _ hrot]
  · simp [movingAvgFmt]
  · intro s hs
    simp only [movingAvgFmt, List.mem_map] at hs
    obtain ⟨i, _, hx⟩ := hs
    exact ⟨_, hx.symm⟩

theorem oversteerValsGo_ok (d : Data) (rotCol gyroCol : String) :
    ∀ idxs : List ℕ,
      (∀ i ∈ idxs, i ≠ 0 →
        (∃ x, readFloat d rotCol i = .ok x) ∧ (∃ y, readFloat d gyroCol i = .ok y)) →
      ∃ vals, oversteerValsGo d rotCol gyroCol idxs = (vals, none) ∧
        vals.length = idxs.length ∧ ∀ s ∈ vals, ∃ x, s = formatHeading x
  | [], _ => ⟨[], rfl, rfl, by simp⟩
  | i :: rest, h => by
    obtain ⟨vals, hvals, hlen, hshape⟩ :=
      oversteerValsGo_ok d rotCol gyroCol rest (fun x hx => h x (by simp [hx]))
    by_cases h0 : i = 0
    · refine ⟨formatHeading 0 :: vals, ?_, by simp [hlen], ?_⟩
      · simp only [oversteerValsGo, if_pos h0, hvals]
      · intro s hs
        rcases List.mem_cons.mp hs with hs | hs
        · exact ⟨0, hs⟩
        · exact hshape s hs
    · obtain ⟨⟨x, hx⟩, ⟨y, hy⟩⟩ := h i (by simp) h0
      refine ⟨formatHeading (x + y) :: vals, ?_, by simp [hlen], ?_⟩
      · simp only [oversteerValsGo, if_neg h0, hx, hy, hvals]
      · intro s hs
        rcases List.mem_cons.mp hs with hs | hs
        · exact ⟨x + y, hs⟩
        · exact hshape s hs

theorem computeOversteer_ok (d : Data) (rotCol gyroCol oCol : String)
    (h : ∀ i, i < dataNval d → i ≠ 0 →
      (∃ x, readFloat d rotCol i = .ok x) ∧ (∃ y, readFloat d gyroCol i = .ok y))
    (hoc : oCol ∉ dataKeys d) :
    ∃ ov, computeOversteer rotCol gyroCol oCol d = (d ++ [(oCol, ov)], none) ∧
      ov.length = dataNval d ∧ ∀ s ∈ ov, ∃ x, s = formatHeading x := by
  obtain ⟨vals, hvals, hlen, hshape⟩ := oversteerValsGo_ok d rotCol gyroCol
    (List.range (dataNval d)) (fun i hi => h i (List.mem_range.mp hi))
  refine ⟨vals, ?_, by rw [hlen, List.length_range], hshape⟩
  simp only [computeOversteer, hvals]
  rw [dataInsert_not_mem d oCol _ hoc]

theorem addComputedColumn_insert_ok (t : Table) (label c : String) (vs : List String)
    (f : Data → Data × Option PyErr)
    (hl : label ∉ t.header)
    (hsub : ∀ x ∈ dataKeys t.data, x ∈ t.colNames)
    (hc : c ∉ t.colNames)
    (hf : f t.data = (t.data ++ [(c, vs)], none)) :
    addComputedColumn t label f =
      ({ t with header := t.header ++ [label], colNames := t.colNames ++ [c],
                data := t.data ++ [(c, vs)] }, none) := by
  have hfil : (dataKeys (t.data ++ [(c, vs)])).filter (fun x => decide (x ∉ t.colNames)) =
      [c] := by
    rw [dataKeys_append, List.filter_append]
    have h1 : (dataKeys t.data).filter (fun x => decide (x ∉ t.colNames)) = [] := by
      rw [List.filter_eq_nil_iff]
      intro a ha
      simp [hsub a ha]
    have h2 : (dataKeys [(c, vs)]).filter (fun x => decide (x ∉ t.colNames)) = [c] := by
      simp [dataKeys, hc]
    rw [h1, h2, List.nil_append]
  simp only [addComputedColumn, if_neg hl, hf, hfil]

theorem removeColumn_mid (H C : List String) (D : Data) (x y : String)
    (vx vy : List String) (nv : ℕ) (av : Option (List String))
    (hxH : x ∉ H) (hxC : x ∉ C) (hxD : x ∉ dataKeys D) :
    removeColumn
      { header := H ++ [x, y], colNames := C ++ [x, y],
        data := D ++ [(x, vx), (y, vy)], nval := nv, avi := av } x x =
      { header := H ++ [y], colNames := C ++ [y],
        data := D ++ [(y, vy)], nval := nv, avi := av } := by
  have hmemC : x ∈ C ++ [x, y] := by simp
  have hmemH : x ∈ H ++ [x, y] := by simp
  have hmemD : x ∈ dataKeys (D ++ [(x, vx), (y, vy)]) := by
    rw [dataKeys_append]
    simp [dataKeys]
  simp only [removeColumn, if_pos hmemC, if_pos hmemH, if_pos hmemD]
  congr 1
  · rw [List.erase_append_right _ hxH, List.erase_cons_head]
  · rw [List.erase_append_right _ hxC, List.erase_cons_head]
  · rw [dataErase_append_not_mem _ _ _ hxD, dataErase_cons_self]


theorem dataNval_append (d1 d2 : Data) (h : d1 ≠ []) :
    dataNval (d1 ++ d2) = dataNval d1 := by
  match d1, h with
  | (k, v) :: rest, _ => rfl

theorem addGpsHeadingColumn_ok (t : Table) (hCol longCol latCol : String) (w : ℕ)
    (hw : 1 ≤ w)
    (hno : hCol ∉ dataKeys t.data) (hnoh : hCol ∉ t.header) (hnoc : hCol ∉ t.colNames)
    (hsub : ∀ x ∈ dataKeys t.data, x ∈ t.colNames)
    (hlat : ColParseOk t.data latCol t.nval) (hlong : ColParseOk t.data longCol t.nval) :
    ∃ hv : List String,
      addGpsHeadingColumn t hCol longCol latCol w =
        ({ t with header := t.header ++ [hCol], colNames := t.colNames ++ [hCol],
                  data := t.data ++ [(hCol, hv)] }, none) ∧
      hv.length = (if t.nval = 0 then 0 else max t.nval w) ∧
      ∀ s ∈ hv, ∃ x, s = formatHeading x := by
  obtain ⟨hv, hfn, hlen, hshape⟩ :=
    gpsHeadingFn_ok t.data hCol latCol longCol w t.nval hw hno hlat hlong
  refine ⟨hv, ?_, hlen, hshape⟩
  rw [addGpsHeadingColumn, if_neg hno]
  exact addComputedColumn_insert_ok t hCol hCol hv _ hnoh hsub hnoc hfn

theorem addRotationSpeedFromHeadingColumn_cascade (t : Table)
    (timeCol rotCol : String) (w : ℕ)
    (hnv : dataNval t.data = t.nval) (hne : t.data ≠ [])
    (hrotD : rotCol ∉ dataKeys t.data) (hrotH : rotCol ∉ t.header)
    (hrotC : rotCol ∉ t.colNames)
    (htimeD : timeCol ∈ dataKeys t.data)
    (hhd : "heading_gps" ∉ dataKeys t.data) (hhh : "heading_gps" ∉ t.header)
    (hhc : "heading_gps" ∉ t.colNames)
    (hrh : rotCol ≠ "heading_gps")
    (hsub : ∀ x ∈ dataKeys t.data, x ∈ t.colNames)
    (hlat : ColParseOk t.data "lat" t.nval) (hlong : ColParseOk t.data "long" t.nval)
    (htime : ColTimeOk t.data timeCol t.nval) :
    ∃ sv : List String,
      addRotationSpeedFromHeadingColumn t timeCol "heading_gps" rotCol w =
        ({ t with header := t.header ++ [rotCol], colNames := t.colNames ++ [rotCol],
                  data := t.data ++ [(rotCol, sv)] }, none) ∧
      sv.length = t.nval ∧ ∀ s ∈ sv, ∃ x, s = fmtFixed2Str x := by
  obtain ⟨hv, hgps, hvlen, hvshape⟩ := addGpsHeadingColumn_ok t "heading_gps" "long" "lat" 5
    (by norm_num) hhd hhh hhc hsub hlat hlong
  set t1 : Table :=
    { t with header := t.header ++ ["heading_gps"], colNames := t.colNames ++ ["heading_gps"],
             data := t.data ++ [("heading_gps", hv)] } with ht1
  have hd1ne : t1.data ≠ [] := by
    simp only [ht1]
    intro hcon
    exact hne (List.append_eq_nil.mp hcon).1
  have hnv1 : dataNval t1.data = t.nval := by
    show dataNval (t.data ++ [("heading_gps", hv)]) = t.nval
    rw [dataNval_append t.data _ hne, hnv]
  have hheadOk : ColParseOk t1.data "heading_gps" (dataNval t1.data) := by
    refine ⟨hv, ?_, ?_, ?_⟩
    · exact dataLookup_append_self t.data _ hv hhd
    · rw [hnv1, hvlen]
      by_cases hz : t.nval = 0
      · simp [hz]
      · rw [if_neg hz]
        omega
    · intro s hs
      obtain ⟨x, hx⟩ := hvshape s hs
      rw [hx]
      exact parse_formatHeading_isSome x
  have htimeOk : ColTimeOk t1.data timeCol (dataNval t1.data) := by
    obtain ⟨vs, hvs, hlen2, hdec⟩ := htime
    exact ⟨vs, dataLookup_append_of_some _ _ _ _ hvs, by rw [hnv1]; exact hlen2, hdec⟩
  have hrot1 : rotCol ∉ dataKeys t1.data := by
    show rotCol ∉ dataKeys (t.data ++ [("heading_gps", hv)])
    rw [dataKeys_append]
    intro hcon
    rcases List.mem_append.mp hcon with hcon | hcon
    · exact hrotD hcon
    · simp only [dataKeys, List.map_cons, List.map_nil, List.mem_singleton] at hcon
      exact hrh hcon
  obtain ⟨sv, hcrs, hsvlen, hsvshape⟩ :=
    computeRotationSpeed_ok t1.data rotCol "heading_gps" timeCol w hheadOk htimeOk hrot1
  have hacc := addComputedColumn_insert_ok t1 rotCol rotCol sv
    (computeRotationSpeed rotCol "heading_gps" timeCol w)
    (by
      show rotCol ∉ t.header ++ ["heading_gps"]
      intro hcon
      rcases List.mem_append.mp hcon with hcon | hcon
      · exact hrotH hcon
      · exact hrh (List.mem_singleton.mp hcon))
    (by
      show ∀ x ∈ dataKeys (t.data ++ [("heading_gps", hv)]), x ∈ t.colNames ++ ["heading_gps"]
      intro x hx
      rw [dataKeys_append] at hx
      rcases List.mem_append.mp hx with hx | hx
      · exact List.mem_append.mpr (Or.inl (hsub x hx))
      · simp only [dataKeys, List.map_cons, List.map_nil, List.mem_singleton] at hx
        subst hx
        simp)
    (by
      show rotCol ∉ t.colNames ++ ["heading_gps"]
      intro hcon
      rcases List.mem_append.mp hcon with hcon | hcon
      · exact hrotC hcon
      · exact hrh (List.mem_singleton.mp hcon))
    hcrs
  have hmemT : timeCol ∈ dataKeys t.data := htimeD
  refine ⟨sv, ?_, by rw [hsvlen, hnv1], hsvshape⟩
  rw [addRotationSpeedFromHeadingColumn, if_neg hrotD, if_neg (by simpa using hmemT),
    if_neg hhd]
  simp only [hgps]
  simp only [hacc]
  have hfinal := removeColumn_mid t.header t.colNames t.data "heading_gps" rotCol hv sv
    t.nval t.avi hhh hhc hhd
  have hassocH : t.header ++ ["heading_gps"] ++ [rotCol] =
      t.header ++ ["heading_gps", rotCol] := by simp
  have hassocC : t.colNames ++ ["heading_gps"] ++ [rotCol] =
      t.colNames ++ ["heading_gps", rotCol] := by simp
  have hassocD : t.data ++ [("heading_gps", hv)] ++ [(rotCol, sv)] =
      t.data ++ [("heading_gps", hv), (rotCol, sv)] := by simp
  rw [hassocH, hassocC, hassocD, hfinal]


/-- C2: the oversteer cascade.  On a table that has the time, lat, long and
gyro-z columns but lacks the heading, rotation-speed and oversteer columns
(in data, header and hence column names), with parseable coordinate/gyro
values and valid timestamps, `add_oversteer_column` succeeds and the only
difference from the original table is the appended oversteer column: the
internally synthesized heading and rotation-speed columns are absent from
the data section, the column-name list and the header list afterwards. -/
theorem add_oversteer_cascade (t : Table)
    (hwf1 : dataKeys t.data = t.colNames)
    (hwf3 : ∀ p ∈ t.data, p.2.length = t.nval)
    (htime : "time" ∈ dataKeys t.data)
    (hlat : "lat" ∈ dataKeys t.data) (hlong : "long" ∈ dataKeys t.data)
    (hgyro : "z_rate_of_rotation-gyro" ∈ dataKeys t.data)
    (hnoh : "heading_gps" ∉ dataKeys t.data)
    (hnor : "rotation_speed_deg_per_s" ∉ dataKeys t.data)
    (hnoo : "oversteer" ∉ dataKeys t.data)
    (hh1 : "heading_gps" ∉ t.header) (hh2 : "rotation_speed_deg_per_s" ∉ t.header)
    (hh3 : "oversteer" ∉ t.header)
    (hplat : ∀ s ∈ (dataLookup t.data "lat").getD [], (parseRatStr s.data).isSome = true)
    (hplong : ∀ s ∈ (dataLookup t.data "long").getD [], (parseRatStr s.data).isSome = true)
    (hpgyro : ∀ s ∈ (dataLookup t.data "z_rate_of_rotation-gyro").getD [],
      (parseRatStr s.data).isSome = true)
    (hptime : ∀ s ∈ (dataLookup t.data "time").getD [], (hhmmssccToMs s).isSome = true) :
    ∃ ov : List String, ov.length = t.nval ∧
      addOversteerColumn t "rotation_speed_deg_per_s" "z_rate_of_rotation-gyro" "oversteer" =
        ({ t with header := t.header ++ ["oversteer"],
                  colNames := t.colNames ++ ["oversteer"],
                  data := t.data ++ [("oversteer", ov)] }, none) := by
  have hne : t.data ≠ [] := by
    intro hcon
    rw [hcon] at htime
    simp [dataKeys] at htime
  have hnv : dataNval t.data = t.nval := dataNval_eq hne hwf3
  have hsub : ∀ x ∈ dataKeys t.data, x ∈ t.colNames := by
    intro x hx
    rw [← hwf1]
    exact hx
  have hnohc : "heading_gps" ∉ t.colNames := by rw [← hwf1]; exact hnoh
  have hnorc : "rotation_speed_deg_per_s" ∉ t.colNames := by rw [← hwf1]; exact hnor
  have hnooc : "oversteer" ∉ t.colNames := by rw [← hwf1]; exact hnoo
  have colParse : ∀ col : String, col ∈ dataKeys t.data →
      (∀ s ∈ (dataLookup t.data col).getD [], (parseRatStr s.data).isSome = true) →
      ColParseOk t.data col t.nval := by
    intro col hc hp
    obtain ⟨vs, hvs⟩ := dataLookup_isSome_of_mem t.data col hc
    refine ⟨vs, hvs, ?_, ?_⟩
    · rw [hwf3 (col, vs) (dataLookup_mem t.data col vs hvs)]
    · intro s hs
      apply hp
      rw [hvs]
      exact hs
  have hlatOk : ColParseOk t.data "lat" t.nval := colParse _ hlat hplat
  have hlongOk : ColParseOk t.data "long" t.nval := colParse _ hlong hplong
  have hgyroOk : ColParseOk t.data "z_rate_of_rotation-gyro" t.nval := colParse _ hgyro hpgyro
  have htimeOk : ColTimeOk t.data "time" t.nval := by
    obtain ⟨vs, hvs⟩ := dataLookup_isSome_of_mem t.data "time" htime
    refine ⟨vs, hvs, ?_, ?_⟩
    · rw [hwf3 ("time", vs) (dataLookup_mem t.data "time" vs hvs)]
    · intro s hs
      apply hptime
      rw [hvs]
      exact hs
  obtain ⟨sv, hrot, hsvlen, hsvshape⟩ := addRotationSpeedFromHeadingColumn_cascade t
    "time" "rotation_speed_deg_per_s" 9 hnv hne hnor hh2 hnorc htime hnoh hh1 hnohc
    (by decide) hsub hlatOk hlongOk htimeOk
  set t3 : Table :=
    { t with header := t.header ++ ["rotation_speed_deg_per_s"],
             colNames := t.colNames ++ ["rotation_speed_deg_per_s"],
             data := t.data ++ [("rotation_speed_deg_per_s", sv)] } with ht3
  have hnv3 : dataNval t3.data = t.nval := by
    show dataNval (t.data ++ _) = t.nval
    rw [dataNval_append t.data _ hne, hnv]
  have hrotOk3 : ColParseOk t3.data "rotation_speed_deg_per_s" (dataNval t3.data) := by
    refine ⟨sv, dataLookup_append_self t.data _ sv hnor, by omega, ?_⟩
    intro s hs
    obtain ⟨x, hx⟩ := hsvshape s hs
    rw [hx]
    exact parse_fmtFixed2_isSome x
  have hgyroOk3 : ColParseOk t3.data "z_rate_of_rotation-gyro" (dataNval t3.data) := by
    obtain ⟨vs, hvs, hlen, hp⟩ := hgyroOk
    exact ⟨vs, dataLookup_append_of_some _ _ _ _ hvs, by omega, hp⟩
  obtain ⟨ov, hco, hovlen, hovshape⟩ := computeOversteer_ok t3.data
    "rotation_speed_deg_per_s" "z_rate_of_rotation-gyro" "oversteer"
    (fun i hi h0 => ⟨readFloat_isOk hrotOk3 hi, readFloat_isOk hgyroOk3 hi⟩)
    (by
      show "oversteer" ∉ dataKeys (t.data ++ _)
      rw [dataKeys_append]
      intro hcon
      rcases List.mem_append.mp hcon with hcon | hcon
      · exact hnoo hcon
      · simp [dataKeys] at hcon)
  have hacc := addComputedColumn_insert_ok t3 "oversteer" "oversteer" ov
    (computeOversteer "rotation_speed_deg_per_s" "z_rate_of_rotation-gyro" "oversteer")
    (by
      show "oversteer" ∉ t.header ++ ["rotation_speed_deg_per_s"]
      intro hcon
      rcases List.mem_append.mp hcon with hcon | hcon
      · exact hh3 hcon
      · simp at hcon)
    (by
      show ∀ x ∈ dataKeys (t.data ++ [("rotation_speed_deg_per_s", sv)]),
        x ∈ t.colNames ++ ["rotation_speed_deg_per_s"]
      intro x hx
      rw [dataKeys_append] at hx
      rcases List.mem_append.mp hx with hx | hx
      · exact List.mem_append.mpr (Or.inl (hsub x hx))
      · simp only [dataKeys, List.map_cons, List.map_nil, List.mem_singleton] at hx
        subst hx
        simp)
    (by
      show "oversteer" ∉ t.colNames ++ ["rotation_speed_deg_per_s"]
      intro hcon
      rcases List.mem_append.mp hcon with hcon | hcon
      · exact hnooc hcon
      · simp at hcon)
    hco
  refine ⟨ov, by rw [hovlen, hnv3], ?_⟩
  rw [addOversteerColumn, if_neg hnoo, if_neg (by simpa using hgyro), if_neg hnor]
  simp only [hrot]
  simp only [hacc]
  have hfinal := removeColumn_mid t.header t.colNames t.data "rotation_speed_deg_per_s"
    "oversteer" sv ov t.nval t.avi hh2 hnorc hnor
  have hassocH : t.header ++ ["rotation_speed_deg_per_s"] ++ ["oversteer"] =
      t.header ++ ["rotation_speed_deg_per_s", "oversteer"] := by simp
  have hassocC : t.colNames ++ ["rotation_speed_deg_per_s"] ++ ["oversteer"] =
      t.colNames ++ ["rotation_speed_deg_per_s", "oversteer"] := by simp
  have hassocD : t.data ++ [("rotation_speed_deg_per_s", sv)] ++ [("oversteer", ov)] =
      t.data ++ [("rotation_speed_deg_per_s", sv), ("oversteer", ov)] := by simp
  rw [hassocH, hassocC, hassocD, hfinal]


/-- Witness for C2 at a concrete two-row table with time, lat, long and
gyro-z columns. -/
theorem add_oversteer_cascade_witness :
    ∃ ov : List String, ov.length = 2 ∧
      addOversteerColumn
        { header := ["time", "lat", "long", "gyroz"],
          colNames := ["time", "lat", "long", "z_rate_of_rotation-gyro"],
          data := [("time", ["000000.00", "000001.00"]), ("lat", ["51.000", "51.001"]),
            ("long", ["-1.000", "-1.000"]), ("z_rate_of_rotation-gyro", ["0.50", "-0.75"])],
          nval := 2, avi := none }
        "rotation_speed_deg_per_s" "z_rate_of_rotation-gyro" "oversteer" =
      ({ header := ["time", "lat", "long", "gyroz"] ++ ["oversteer"],
         colNames := ["time", "lat", "long", "z_rate_of_rotation-gyro"] ++ ["oversteer"],
         data := [("time", ["000000.00", "000001.00"]), ("lat", ["51.000", "51.001"]),
           ("long", ["-1.000", "-1.000"]), ("z_rate_of_rotation-gyro", ["0.50", "-0.75"])] ++
           [("oversteer", ov)],
         nval := 2, avi := none }, none) :=
  add_oversteer_cascade
    { header := ["time", "lat", "long", "gyroz"],
      colNames := ["time", "lat", "long", "z_rate_of_rotation-gyro"],
      data := [("time", ["000000.00", "000001.00"]), ("lat", ["51.000", "51.001"]),
        ("long", ["-1.000", "-1.000"]), ("z_rate_of_rotation-gyro", ["0.50", "-0.75"])],
      nval := 2, avi := none }
    (by decide) (by decide) (by decide) (by decide) (by decide) (by decide) (by decide)
    (by decide) (by decide) (by decide) (by decide) (by decide) (by decide) (by decide)
    (by decide) (by decide)

end Vbolib
